import Mathlib

/-!
Verification development for the search-app-v2 repository.

The TypeScript source under src/app is shallowly embedded here:

* JavaScript strings are Lean `String`s; every string operation used by the
  source (trim, toLowerCase, includes, split, startsWith, slice) is
  reimplemented on the underlying character list, mirroring the exact
  JavaScript semantics that the source relies on.
* JavaScript numbers are modelled as `Rat`: every arithmetic fact claimed
  about the code is an algebraic identity, and the constants involved
  (0.4, 0.35, 0.1, ...) are treated as exact rationals.  `Math.log10` is
  not algebraic; it enters only through `sales_count` popularity boosts and
  is modelled as an opaque parameter `log10` of the environment, which no
  claim depends on.
* The Typesense client is modelled as a function from the built search
  parameters to `Except String (List Hit)`: `Except.error msg` models a
  thrown error whose `message` is `msg`.  The `vector_query` string of the
  source is modelled structurally (the embedding list and `k` are carried
  as fields) since no claim is about its textual rendering.
* Every executor additionally returns the list of backend calls it issued,
  in order, so that claims about dispatch, retries and call counts are
  statable.  `Promise.allSettled` of totalised branches is modelled by
  evaluating the (already total) branch functions.
-/

namespace SearchApp

/-! ## JavaScript string primitives (on the character list) -/

/-- Whitespace test used for `trim` and `split(/\s+/)`. -/
def isWs (c : Char) : Bool := c.isWhitespace

/-- JavaScript `String.prototype.trim`. -/
def jsTrim (s : String) : String :=
  ⟨(((s.data.dropWhile isWs).reverse.dropWhile isWs).reverse)⟩

/-- JavaScript `String.prototype.toLowerCase` (ASCII, which is all the source uses). -/
def jsToLower (s : String) : String := ⟨s.data.map Char.toLower⟩

/-- JavaScript `String.prototype.toUpperCase` (ASCII). -/
def jsToUpper (s : String) : String := ⟨s.data.map Char.toUpper⟩

/-- Substring search over character lists. -/
def subInfix (pat : List Char) : List Char → Bool
  | [] => pat.isEmpty
  | c :: cs => pat.isPrefixOf (c :: cs) || subInfix pat cs

/-- JavaScript `String.prototype.includes` (substring containment). -/
def strIncludes (s pat : String) : Bool := subInfix pat.data s.data

/-- JavaScript `String.prototype.startsWith`. -/
def strStartsWith (s pat : String) : Bool := pat.data.isPrefixOf s.data

/-- JavaScript membership test `s.includes(c)` for a single character. -/
def strHasChar (s : String) (c : Char) : Bool := s.data.contains c

/-- JavaScript `split(/\s+/)`: on the empty string it yields `[""]`, on a
trimmed non-empty string it yields the non-empty whitespace-separated
tokens (the only two shapes the source feeds it). -/
def jsSplitWs (s : String) : List String :=
  if s = "" then [""]
  else ((s.data.splitOnP isWs).filter (fun t => !t.isEmpty)).map (fun t => ⟨t⟩)

/-! ## search-analyzer.ts : data model -/

/-- The `SearchStrategy` enum of search-types.ts. -/
inductive SearchStrategy where
  | exactMatch
  | semantic
  | keyword
deriving DecidableEq, Repr

/-- The `SearchContext` interface of search-types.ts. -/
structure SearchContext where
  categories : List String
  attributes : List String
  intents : List String
  descriptors : List String
  confidence : Rat
  originalQuery : String
  unmatchedTokens : List String
deriving DecidableEq, Repr

/-- The `AnalysisResult` interface of search-types.ts. -/
structure AnalysisResult where
  strategy : SearchStrategy
  confidence : Rat
  identifierType : Option String
  context : Option SearchContext
  suggestedChips : List String
  queryTerms : List String
deriving DecidableEq, Repr

/-! ## search-analyzer.ts : identifier patterns

Each regular expression of `productIdPatterns` is translated into a
decidable predicate on the character list.  All patterns are anchored
(`^...$`) and built from character classes, so the translation is direct. -/

/-- Character class `[A-Z0-9\-_]` under the `i` flag. -/
def isSkuChar (c : Char) : Bool := c.isAlpha || c.isDigit || c = '-' || c = '_'

/-- Character class `[A-Z0-9\-]` under the `i` flag. -/
def isMpnChar (c : Char) : Bool := c.isAlpha || c.isDigit || c = '-'

/-- Character class `[A-Z0-9]` under the `i` flag. -/
def isAlnumChar (c : Char) : Bool := c.isAlpha || c.isDigit

/-- Regex `^[A-Z0-9\-_]{3,20}$/i`. -/
def skuPattern (s : String) : Bool :=
  s.data.all isSkuChar && decide (3 ≤ s.data.length) && decide (s.data.length ≤ 20)

/-- Regex `^[A-Z0-9\-]{6,20}$/i`. -/
def mpnPattern (s : String) : Bool :=
  s.data.all isMpnChar && decide (6 ≤ s.data.length) && decide (s.data.length ≤ 20)

/-- Regex `^\d{8,14}$`. -/
def gtinPattern (s : String) : Bool :=
  s.data.all Char.isDigit && decide (8 ≤ s.data.length) && decide (s.data.length ≤ 14)

/-- Regex `^\d{12}$`. -/
def upcPattern (s : String) : Bool :=
  s.data.all Char.isDigit && decide (s.data.length = 12)

/-- Tail of the productId pattern after the alternation: `[\-_]?\d{4,}$`. -/
def productIdTail : List Char → Bool
  | [] => false
  | c :: cs =>
    if c = '-' || c = '_' then cs.all Char.isDigit && decide (4 ≤ cs.length)
    else (c :: cs).all Char.isDigit && decide (4 ≤ (c :: cs).length)

/-- Regex `^(PROD|ID|P)[\-_]?\d{4,}$/i`.  Trying the alternatives in order
without backtracking is equivalent here: when the input starts with `PROD`
(resp. `ID`), the shorter alternative `P` leaves a tail starting with a
letter, which `productIdTail` rejects, so no match is lost. -/
def productIdPattern (s : String) : Bool :=
  let u := s.data.map Char.toUpper
  if ['P', 'R', 'O', 'D'].isPrefixOf u then productIdTail (u.drop 4)
  else if ['I', 'D'].isPrefixOf u then productIdTail (u.drop 2)
  else if ['P'].isPrefixOf u then productIdTail (u.drop 1)
  else false

/-- Regex `^[A-Z0-9]{4,15}$/i`. -/
def alphanumericPattern (s : String) : Bool :=
  s.data.all isAlnumChar && decide (4 ≤ s.data.length) && decide (s.data.length ≤ 15)

/-- The `productIdPatterns` object, as the ordered association list that
`Object.entries`/`Object.values` iterate over. -/
def productIdPatterns : List (String × (String → Bool)) :=
  [("sku", skuPattern), ("mpn", mpnPattern), ("gtin", gtinPattern),
   ("upc", upcPattern), ("productId", productIdPattern),
   ("alphanumeric", alphanumericPattern)]

/-- The stoplist of `isProductIdentifier`. -/
def commonWords : List String := ["sale", "new", "all", "best", "top", "food"]

/-- `SearchAnalyzer.isProductIdentifier`. -/
def isProductIdentifier (query : String) : Bool :=
  if strHasChar query ' ' then false
  else if commonWords.contains (jsToLower query) then false
  else productIdPatterns.any (fun pr => pr.2 query)

/-- `SearchAnalyzer.getIdentifierType`: name of the first matching pattern,
with the literal `alphanumeric` fallback of the source. -/
def getIdentifierType (query : String) : String :=
  match productIdPatterns.find? (fun pr => pr.2 query) with
  | some pr => pr.1
  | none => "alphanumeric"

/-! ## search-analyzer.ts : context keywords and extraction -/

/-- The `categories` taxonomy of `contextKeywords`. -/
def categoriesKw : List String :=
  ["chocolate", "cookies", "pasta", "sauce", "meat", "chicken", "beef",
   "vegetables", "fruit", "dairy", "cheese", "milk", "bread", "bakery",
   "frozen", "fresh", "canned", "snacks", "beverages", "coffee", "tea",
   "paper", "plates", "cups", "utensils", "napkins", "towels",
   "cleaning", "supplies", "equipment", "kitchen", "dessert", "appetizer",
   "salad", "soup", "entree", "side", "dish", "meal", "food", "drink"]

/-- The `attributes` taxonomy of `contextKeywords`. -/
def attributesKw : List String :=
  ["organic", "gluten-free", "vegan", "vegetarian", "plant-based", "kosher",
   "halal", "sugar-free", "low-fat", "natural", "fresh", "frozen", "dried",
   "canned", "disposable", "recyclable", "biodegradable", "eco-friendly",
   "dairy-free", "nut-free", "non-gmo", "whole", "raw"]

/-- The `intents` taxonomy of `contextKeywords`. -/
def intentsKw : List String :=
  ["healthy", "diet", "party", "catering", "bulk", "wholesale",
   "restaurant", "commercial", "industrial", "premium", "budget",
   "thanksgiving", "christmas", "holiday", "dinner", "lunch", "breakfast",
   "event", "celebration", "gathering", "meal", "occasion", "festive"]

/-- The `descriptors` taxonomy of `contextKeywords`. -/
def descriptorsKw : List String :=
  ["best", "top", "quality", "cheap", "expensive", "large", "small",
   "heavy-duty", "light", "strong", "durable", "single-use", "good",
   "great", "perfect", "suitable", "ideal", "options", "alternatives"]

/-- `SearchAnalyzer.areSimilar`.  Note the source resolves equal lengths by
taking `word2` as the longer word. -/
def areSimilar (word1 word2 : String) : Bool :=
  if (word1.data.length : Int) - word2.data.length ≤ 1
      && (word2.data.length : Int) - word1.data.length ≤ 1 then
    let longer := if word1.data.length > word2.data.length then word1 else word2
    let shorter := if word1.data.length > word2.data.length then word2 else word1
    strStartsWith longer shorter || strStartsWith shorter ⟨longer.data.dropLast⟩
  else false

/-- The per-keyword match rule of `extractContext`: exact equality, the
token inside the keyword (tokens longer than 2), the keyword inside the
token (keywords longer than 3), or the `areSimilar` near-match. -/
def keywordMatches (token keyword : String) : Bool :=
  token = keyword
    || (strIncludes keyword token && decide (token.data.length > 2))
    || (strIncludes token keyword && decide (keyword.data.length > 3))
    || areSimilar token keyword

/-- The question-intent substrings of `extractContext`, each worth 0.15. -/
def questionPatterns : List String :=
  ["what are", "where can", "how to", "which", "what kind",
   "looking for", "need", "want", "find", "suggest", "recommend",
   "options", "alternatives", "choices", "ideas"]

/-- The semantic-request phrases of `extractContext`, each worth 0.1. -/
def semanticPhrases : List String :=
  ["for a", "for my", "for the", "suitable for", "good for",
   "options for", "alternatives", "something", "anything"]

/-- JavaScript `new Set(xs)` spread back into an array: first occurrences
in order. -/
def dedupFirst (l : List String) : List String :=
  l.foldl (fun acc x => if x ∈ acc then acc else acc ++ [x]) []

/-- Intermediate accumulator of `extractContext`. -/
structure CtxAcc where
  categories : List String
  attributes : List String
  intents : List String
  descriptors : List String
  score : Rat
  matched : List String
deriving Repr

/-- Per-token step of `extractContext`: test the token against the four
taxonomies in source order, pushing matched keywords, marking the token
and adding 0.2 per taxonomy hit. -/
def ctxStep (acc : CtxAcc) (token : String) : CtxAcc :=
  let run (kws : List String) (get : CtxAcc → List String)
      (set : CtxAcc → List String → CtxAcc) (a : CtxAcc) : CtxAcc :=
    let found := kws.filter (fun kw => keywordMatches token kw)
    if found.isEmpty then a
    else
      let a := set a (get a ++ found)
      { a with score := a.score + 2/10,
               matched := if token ∈ a.matched then a.matched else a.matched ++ [token] }
  let a := run categoriesKw (·.categories) (fun a l => { a with categories := l }) acc
  let a := run attributesKw (·.attributes) (fun a l => { a with attributes := l }) a
  let a := run intentsKw (·.intents) (fun a l => { a with intents := l }) a
  run descriptorsKw (·.descriptors) (fun a l => { a with descriptors := l }) a

/-- `SearchAnalyzer.extractContext`. -/
def extractContext (query : String) : SearchContext :=
  let tokens := jsSplitWs (jsToLower query)
  let acc := tokens.foldl ctxStep
    { categories := [], attributes := [], intents := [], descriptors := [],
      score := 0, matched := [] }
  let queryLower := jsToLower query
  let score := acc.score
    + (15/100 : Rat) * ((questionPatterns.filter (fun p => strIncludes queryLower p)).length)
    + (1/10 : Rat) * ((semanticPhrases.filter (fun p => strIncludes queryLower p)).length)
  let typesHit :=
    ([acc.categories, acc.attributes, acc.intents, acc.descriptors].filter
      (fun l => !l.isEmpty)).length
  let score := if typesHit ≥ 2 then score * (13/10) else score
  let score :=
    if strHasChar queryLower '?' || strStartsWith queryLower "what"
        || strStartsWith queryLower "where" || strStartsWith queryLower "how" then
      score * (12/10)
    else score
  { categories := dedupFirst acc.categories
    attributes := dedupFirst acc.attributes
    intents := dedupFirst acc.intents
    descriptors := dedupFirst acc.descriptors
    confidence := min score 1
    originalQuery := query
    unmatchedTokens := tokens.filter (fun t => t ∉ acc.matched) }

/-- `SearchAnalyzer.generatePromptChips`: pushes the conditional chip
groups in source order and returns the first 8. -/
def generatePromptChips (query : String) (context : SearchContext) : List String :=
  let chips :=
    (if context.categories.isEmpty then
      ["in Snacks", "in Beverages", "in Paper Products", "in Kitchen Equipment"] else [])
    ++ (if context.attributes.isEmpty then ["Organic", "Gluten-Free", "Bulk Size"] else [])
    ++ (if context.intents.isEmpty then ["for Restaurant", "for Home", "for Catering"] else [])
    ++ ["Premium Brands", "Budget Options", "On Sale"]
    ++ (if query.length < 10 && decide (context.confidence < 3/10) then
          ["Most Popular", "New Arrivals", "Best Sellers"] else [])
  chips.take 8

/-- `SearchAnalyzer.analyze`. -/
def analyze (query : String) : AnalysisResult :=
  let cleanQuery := jsTrim query
  if isProductIdentifier cleanQuery then
    { strategy := .exactMatch, confidence := 1,
      identifierType := some (getIdentifierType cleanQuery),
      context := none, suggestedChips := [], queryTerms := [cleanQuery] }
  else
    let context := extractContext cleanQuery
    if context.confidence > 2/5 then
      { strategy := .semantic, confidence := context.confidence,
        identifierType := none, context := some context, suggestedChips := [],
        queryTerms := jsSplitWs (jsToLower cleanQuery) }
    else
      { strategy := .keyword, confidence := max (3/10) context.confidence,
        identifierType := none,
        context := if context.confidence > 0 then some context else none,
        suggestedChips := generatePromptChips cleanQuery context,
        queryTerms := jsSplitWs (jsToLower cleanQuery) }

/-! ## route.ts : data model

The `Product` structure keeps the document fields the route actually
reads.  Optional source fields that are only ever read through a
JavaScript default (`product.name?.toLowerCase() || ""`,
`product.sales_count || 0`) are modelled as total fields whose default
value coincides with the JavaScript default.  The route also annotates
hits with `conceptMatch`/`conceptBoost` marker fields; no claim mentions
them and they are not modelled. -/

structure Product where
  sku : String
  name : String := ""
  brand : String := ""
  description : String := ""
  sales_count : Nat := 0
  is_in_stock : Bool := true
  score : Rat := 0
deriving DecidableEq, Repr

/-- A backend hit: the document plus the optional backend scores
(`text_match` for text searches, `vector_distance` for vector searches). -/
structure Hit where
  document : Product
  text_match : Option Rat := none
  vector_distance : Option Rat := none
deriving DecidableEq, Repr

/-- The parameter bag passed to `client.multiSearch.perform`, with the
`vector_query` string represented structurally by the embedding list and
`k`.  Fields the source leaves unset are `none`. -/
structure SearchParams where
  collection : String
  q : String
  query_by : String
  filter_by : Option String := none
  sort_by : Option String := none
  per_page : Option Nat := none
  page : Option Nat := none
  exclude_fields : Option String := none
  prefixFlag : Option Bool := none
  infixMode : Option String := none
  drop_tokens_threshold : Option Nat := none
  query_by_weights : Option String := none
  vector_embedding : Option (List Rat) := none
  vector_k : Option Nat := none
deriving DecidableEq, Repr

/-- The request body / `SearchOptions` of search-types.ts.  Optional
fields are `Option` so that the JavaScript truthiness defaults
(`options.salesBoost || 0.5`, `options.limit || 24`, ...) can be modelled
exactly. -/
structure SearchOptions where
  query : String
  queryEmbedding : Option (List Rat) := none
  salesBoost : Option Rat := none
  limit : Option Nat := none
  filters : Option String := none
  page : Option Nat := none
  collection : Option String := none
deriving DecidableEq, Repr

/-- The environment of the route: the Typesense client (an error result
models a thrown error carrying that message) and `Math.log10`, which is
kept opaque; `log10 n` stands for `Math.log10 n`. -/
structure Env where
  backend : SearchParams → Except String (List Hit)
  log10 : Nat → Rat

/-- The `SemanticConcepts` interface of route.ts. -/
structure SemanticConcepts where
  dietary : List String
  occasions : List String
  productTypes : List String
  modifiers : List String
  traditionalFoods : List String
deriving DecidableEq, Repr

/-! ## JavaScript truthiness defaults -/

/-- JavaScript `x || d` for an optional number (0 and undefined are falsy). -/
def jsOrNat (x : Option Nat) (d : Nat) : Nat :=
  match x with
  | some n => if n = 0 then d else n
  | none => d

/-- JavaScript `x || d` for an optional rational. -/
def jsOrRat (x : Option Rat) (d : Rat) : Rat :=
  match x with
  | some v => if v = 0 then d else v
  | none => d

/-- JavaScript `s || d` for a string (only the empty string is falsy). -/
def jsOrStr (s d : String) : String := if s = "" then d else s

/-- JavaScript truthiness of an optional string, as used in
`if (options.filters)`: keep the string only when present and non-empty. -/
def jsStrOpt (x : Option String) : Option String :=
  match x with
  | some s => if s = "" then none else some s
  | none => none

/-- JavaScript truthiness of an optional number. -/
def jsTruthy (x : Option Rat) : Bool :=
  match x with
  | some v => v ≠ 0
  | none => false

/-- `hit.text_match || hit.vector_distance || 0` of `processSearchResults`. -/
def baseScoreOf (h : Hit) : Rat :=
  if jsTruthy h.text_match then h.text_match.getD 0
  else if jsTruthy h.vector_distance then h.vector_distance.getD 0
  else 0

/-- Module-level constants of route.ts (environment defaults). -/
def DEFAULT_LIMIT : Nat := 24

/-- Cap applied to the requested limit. -/
def MAX_LIMIT : Nat := 100

/-- Default collection of typesense-config.ts (environment default). -/
def COLLECTION_NAME : String := "products_en-US_v10_copy"

/-- The collection selection shared by all executors. -/
def collectionNameOf (o : SearchOptions) : String :=
  match o.collection with
  | some c => if c ≠ "" && c ≠ "all" then c else COLLECTION_NAME
  | none => COLLECTION_NAME

/-- `options.salesBoost || 0.5`. -/
def getSalesBoost (o : SearchOptions) : Rat := jsOrRat o.salesBoost (1/2)

/-- `processSearchResults`: text or vector score with the popularity
multiplier `(1 + log10(sales_count + 1) * salesBoost)`. -/
def processSearchResults (env : Env) (salesBoost : Rat) (hits : List Hit) : List Product :=
  hits.map fun h =>
    { h.document with
      score := baseScoreOf h * (1 + env.log10 (h.document.sales_count + 1) * salesBoost) }

/-! ## route.ts : search parameter builders -/

/-- Parameters built by `performExactMatchSearch`. -/
def exactSearchParams (o : SearchOptions) : SearchParams :=
  let searchQuery := jsToUpper o.query
  let filterParts := String.intercalate " || "
    (["sku", "mpn", "gtin", "upc", "product_id"].map (fun f => f ++ ":=" ++ searchQuery))
  { collection := collectionNameOf o
    q := "*"
    query_by := "sku,gtin,upc,product_id,mpn"
    filter_by := some (match jsStrOpt o.filters with
      | some f => "(" ++ filterParts ++ ") && " ++ f
      | none => filterParts)
    per_page := o.limit
    page := some (jsOrNat o.page 1)
    exclude_fields := some "embedding,embedding_text" }

/-- Parameters built by `performKeywordSearch`. -/
def keywordSearchParams (o : SearchOptions) : SearchParams :=
  { collection := collectionNameOf o
    q := jsOrStr o.query "*"
    query_by := "name,category,description,category_l4,category_l3,category_l2,category_l1,manufacturer,brand,sku"
    sort_by := some "is_in_stock:desc,sales_count:desc,_text_match:desc"
    per_page := o.limit
    page := some (jsOrNat o.page 1)
    exclude_fields := some "embedding,embedding_text"
    prefixFlag := some true
    infixMode := some "fallback"
    drop_tokens_threshold := some 0
    filter_by := jsStrOpt o.filters }

/-- Parameters built by `performFallbackSearch`. -/
def fallbackSearchParams (o : SearchOptions) : SearchParams :=
  { collection := collectionNameOf o
    q := o.query
    query_by := "name,sku,mpn,manufacturer,brand"
    prefixFlag := some true
    infixMode := some "always"
    per_page := o.limit
    page := some (jsOrNat o.page 1)
    exclude_fields := some "embedding,embedding_text"
    filter_by := jsStrOpt o.filters }

/-- Parameters built by `performVectorSearch` for a given embedding. -/
def vectorSearchParams (o : SearchOptions) (emb : List Rat) : SearchParams :=
  { collection := collectionNameOf o
    q := "*"
    query_by := "name"
    exclude_fields := some "embedding,embedding_text"
    per_page := some (jsOrNat o.limit 24)
    vector_embedding := some emb
    vector_k := some (jsOrNat o.limit 24)
    filter_by := jsStrOpt o.filters }

/-! ## route.ts : semantic concept extraction -/

/-- The `dietaryTerms` table of `extractSemanticConcepts`. -/
def dietaryTerms : List (String × List String) :=
  [("vegan", ["plant-based", "dairy-free", "meatless", "animal-free"]),
   ("vegetarian", ["meat-free", "veggie"]),
   ("gluten-free", ["gluten free", "celiac", "wheat-free"]),
   ("keto", ["low-carb", "ketogenic"]),
   ("organic", ["natural", "non-gmo"]),
   ("kosher", ["kosher certified"]),
   ("halal", ["halal certified"])]

/-- The `occasionTerms` table of `extractSemanticConcepts`. -/
def occasionTerms : List (String × List String) :=
  [("thanksgiving", ["turkey day", "harvest", "november feast", "fall feast"]),
   ("christmas", ["xmas", "holiday", "festive", "december"]),
   ("easter", ["spring holiday", "paschal"]),
   ("halloween", ["october 31", "trick or treat"]),
   ("bbq", ["barbecue", "cookout", "grilling"]),
   ("party", ["celebration", "gathering", "event"])]

/-- The `traditionalFoods` table of `extractSemanticConcepts`. -/
def traditionalFoodsMap : List (String × List String) :=
  [("thanksgiving",
    ["turkey", "stuffing", "gravy", "cranberry sauce", "pumpkin pie",
     "mashed potatoes", "green bean casserole", "sweet potato", "corn"]),
   ("christmas",
    ["ham", "roast", "cookies", "gingerbread", "eggnog", "candy cane",
     "fruitcake", "prime rib"]),
   ("bbq",
    ["burgers", "hot dogs", "ribs", "chicken wings", "coleslaw",
     "potato salad", "corn on the cob"]),
   ("easter", ["ham", "lamb", "eggs", "chocolate", "candy", "carrots"])]

/-- The `intentModifiers` list of `extractSemanticConcepts`. -/
def intentModifiers : List String :=
  ["options", "alternatives", "substitutes", "ideas", "suggestions"]

/-- A term-table entry matches when the canonical tag or any synonym
occurs in the lower-cased query. -/
def termEntryMatches (queryLower : String) (t : String × List String) : Bool :=
  strIncludes queryLower t.1 || t.2.any (fun syn => strIncludes queryLower syn)

/-- `extractSemanticConcepts`. -/
def extractSemanticConcepts (query : String) : SemanticConcepts :=
  let queryLower := jsToLower query
  let matchedOccasions := occasionTerms.filter (termEntryMatches queryLower)
  { dietary := (dietaryTerms.filter (termEntryMatches queryLower)).map (·.1)
    occasions := matchedOccasions.map (·.1)
    productTypes := []
    modifiers := intentModifiers.filter (fun m => strIncludes queryLower m)
    traditionalFoods :=
      (matchedOccasions.map (fun t =>
        (((traditionalFoodsMap.find? (fun e => e.1 = t.1)).map (·.2)).getD []))).flatten }

/-- The `alternativeProducts` table of `generateAlternativeSearchTerms`. -/
def alternativeProducts : List (String × List String) :=
  [("vegan-thanksgiving",
    ["tofurky", "plant-based roast", "field roast", "gardein turkey",
     "vegan stuffing", "mushroom gravy"]),
   ("vegan-christmas", ["vegan ham", "nut roast", "wellington", "plant-based roast"]),
   ("vegan-bbq",
    ["beyond burger", "impossible burger", "veggie burger",
     "plant-based sausage", "portobello"]),
   ("vegetarian-thanksgiving", ["quorn roast", "vegetarian turkey", "nut loaf"]),
   ("gluten-free-thanksgiving",
    ["gluten-free stuffing", "rice stuffing", "gluten-free pie"])]

/-- `generateAlternativeSearchTerms`: curated dietary-occasion pairs plus
generic plant-based terms, deduplicated keeping first occurrences. -/
def generateAlternativeSearchTerms (concepts : SemanticConcepts) : List String :=
  let paired := (concepts.dietary.map (fun diet =>
    (concepts.occasions.map (fun occ =>
      (((alternativeProducts.find? (fun e => e.1 = diet ++ "-" ++ occ)).map (·.2)).getD []))).flatten)).flatten
  let terms := paired ++
    (if concepts.dietary.contains "vegan" || concepts.dietary.contains "vegetarian" then
      ["plant-based", "meat alternative", "dairy-free"] else [])
  dedupFirst terms

/-- JavaScript `s.replace(pat, r)` for a single-character pattern: only
the first occurrence is replaced. -/
def jsReplaceFirst (s : String) (a b : Char) : String :=
  ⟨go s.data⟩
where go : List Char → List Char
  | [] => []
  | c :: cs => if c = a then b :: cs else c :: go cs

/-- The known alternative-product brands of `postProcessConceptMatches`. -/
def alternativeBrands : List String :=
  ["tofurky", "gardein", "field roast", "beyond", "impossible", "daiya", "quorn"]

/-- `postProcessConceptMatches`: dietary, alternative-pattern, brand and
occasion boosts followed by the popularity multiplier. -/
def postProcessConceptMatches (env : Env) (concepts : SemanticConcepts)
    (salesBoost : Rat) (hits : List Hit) : List Product :=
  hits.map fun hit =>
    let product := hit.document
    let score := hit.text_match.getD 0
    let productNameLower := jsToLower product.name
    let descriptionLower := jsToLower product.description
    let brandLower := jsToLower product.brand
    let combined := productNameLower ++ " " ++ descriptionLower ++ " " ++ brandLower
    let conceptBoost : Rat := 1
    let conceptBoost :=
      if !concepts.dietary.isEmpty then
        let hasDietaryMatch := concepts.dietary.any (fun diet =>
          strIncludes combined diet || strIncludes combined (jsReplaceFirst diet '-' ' '))
        if hasDietaryMatch then
          let b := conceptBoost * (13/10)
          let isAlternative := concepts.traditionalFoods.any (fun food =>
            [(concepts.dietary.headD "") ++ " " ++ food,
             "plant-based " ++ food, "meatless " ++ food,
             "dairy-free " ++ food].any (fun pat => strIncludes combined pat))
          let b := if isAlternative then b * (3/2) else b
          if alternativeBrands.any (fun br => strIncludes brandLower br) then b * (13/10) else b
        else conceptBoost
      else conceptBoost
    let conceptBoost :=
      if !concepts.occasions.isEmpty then
        if concepts.occasions.any (fun occ => strIncludes combined occ) then
          conceptBoost * (12/10)
        else conceptBoost
      else conceptBoost
    let salesScore := env.log10 (product.sales_count + 1)
    { product with score := score * conceptBoost * (1 + salesScore * salesBoost) }

/-- Dietary filter predicates of `performConceptAwareKeywordSearch`. -/
def dietaryPredicate (diet : String) : String :=
  if diet = "vegan" then "(food_properties:vegan || name:vegan || description:plant-based)"
  else if diet = "vegetarian" then "(food_properties:vegetarian || name:vegetarian || name:veggie)"
  else if diet = "gluten-free" then "(food_properties:gluten-free || name:gluten-free)"
  else "food_properties:" ++ diet

/-- Parameters built by `performConceptAwareKeywordSearch`. -/
def conceptKeywordSearchParams (o : SearchOptions) (concepts : SemanticConcepts) : SearchParams :=
  let enhancedQuery :=
    if !concepts.dietary.isEmpty && !concepts.traditionalFoods.isEmpty then
      o.query ++ " " ++ String.intercalate " " (concepts.traditionalFoods.take 3)
    else o.query
  { collection := collectionNameOf o
    q := enhancedQuery
    query_by := "name,category,description,brand,food_properties"
    sort_by := some "_text_match:desc,sales_count:desc"
    per_page := some (jsOrNat o.limit 24)
    page := some (jsOrNat o.page 1)
    exclude_fields := some "embedding,embedding_text"
    prefixFlag := some true
    infixMode := some "fallback"
    drop_tokens_threshold := some 0
    query_by_weights := some "3,1,1,2,2"
    filter_by :=
      if !concepts.dietary.isEmpty then
        some (String.intercalate " && " (concepts.dietary.map dietaryPredicate))
      else none }

/-- Parameters built by `performConceptCombinationSearch`. -/
def comboSearchParams (o : SearchOptions) (terms : List String) : SearchParams :=
  { collection := collectionNameOf o
    q := String.intercalate " " terms
    query_by := "name,brand,description"
    sort_by := some "_text_match:desc,sales_count:desc"
    per_page := some (min (jsOrNat o.limit 24) 10)
    exclude_fields := some "embedding,embedding_text"
    prefixFlag := some false
    query_by_weights := some "3,2,1" }

/-! ## route.ts : executors

Each executor returns its result together with the list of backend calls
it issued, in order. -/

/-- `performKeywordSearch`: the one executor that rethrows a backend
error instead of swallowing it. -/
def performKeywordSearch (env : Env) (o : SearchOptions) :
    Except String (List Product) × List SearchParams :=
  let p := keywordSearchParams o
  match env.backend p with
  | .ok hits => (.ok (processSearchResults env (getSalesBoost o) hits), [p])
  | .error m => (.error m, [p])

/-- `performFallbackSearch`: lenient search, returns `[]` on failure. -/
def performFallbackSearch (env : Env) (o : SearchOptions) :
    List Product × List SearchParams :=
  let p := fallbackSearchParams o
  match env.backend p with
  | .ok hits => (hits.map (fun h => { h.document with score := h.text_match.getD 0 }), [p])
  | .error _ => ([], [p])

/-- `performExactMatchSearch`: identifier-filter search scoring hits 100,
delegating to the fallback search on zero hits or error.  The `analysis`
argument is accepted and unused, as in the source. -/
def performExactMatchSearch (env : Env) (o : SearchOptions)
    (analysis : AnalysisResult) : List Product × List SearchParams :=
  let p := exactSearchParams o
  match env.backend p with
  | .ok hits =>
    if hits.length > 0 then
      (hits.map (fun h => { h.document with score := 100 }), [p])
    else
      let f := performFallbackSearch env o
      (f.1, p :: f.2)
  | .error _ =>
    let f := performFallbackSearch env o
    (f.1, p :: f.2)

/-- `performConceptAwareKeywordSearch`: returns `[]` on failure. -/
def performConceptAwareKeywordSearch (env : Env) (o : SearchOptions)
    (concepts : SemanticConcepts) : List Product × List SearchParams :=
  let p := conceptKeywordSearchParams o concepts
  match env.backend p with
  | .ok hits => (postProcessConceptMatches env concepts (getSalesBoost o) hits, [p])
  | .error _ => ([], [p])

/-- `performConceptCombinationSearch`: issues no call when there are no
alternative terms; boosts each hit score by 1.5; returns `[]` on failure. -/
def performConceptCombinationSearch (env : Env) (o : SearchOptions)
    (concepts : SemanticConcepts) : List Product × List SearchParams :=
  let terms := generateAlternativeSearchTerms concepts
  if terms.isEmpty then ([], [])
  else
    let p := comboSearchParams o terms
    match env.backend p with
    | .ok hits =>
      (hits.map (fun h => { h.document with score := h.text_match.getD 0 * (3/2) }), [p])
    | .error _ => ([], [p])

/-- Truthiness of an error message (`error.message && ...`). -/
def truthyStr (s : String) : Bool := s ≠ ""

/-- Recursive core of `performVectorSearch`: on a payload-class error
with an embedding longer than 768 the search is retried with the
embedding truncated to its first 768 dimensions; any other error yields
`[]`. -/
def performVectorSearchAux (env : Env) (o : SearchOptions) (emb : List Rat) :
    List Product × List SearchParams :=
  let p := vectorSearchParams o emb
  match env.backend p with
  | .ok hits => (processSearchResults env (getSalesBoost o) hits, [p])
  | .error m =>
    if h : (truthyStr m && strIncludes m "payload" && decide (768 < emb.length)) = true then
      let r := performVectorSearchAux env o (emb.take 768)
      (r.1, p :: r.2)
    else ([], [p])
termination_by emb.length
decreasing_by
  simp only [Bool.and_eq_true, decide_eq_true_eq] at h
  simp [List.length_take]
  omega

/-- `performVectorSearch`. -/
def performVectorSearch (env : Env) (o : SearchOptions) :
    List Product × List SearchParams :=
  match o.queryEmbedding with
  | none => ([], [])
  | some emb => performVectorSearchAux env o emb

/-! ## route.ts : result fusion (`mergeSemanticResults`)

The source accumulates into a `Map` keyed by sku, with a `sources` set
per entry: on an existing key the score is incremented in place and the
label added; otherwise a new entry is appended.  The map is modelled as
an insertion-ordered entry list whose skus stay duplicate-free by
construction.  The per-label loop body (`addProducts`) is generalised to
a fold over an arbitrary list of labelled, weighted result sets so that
reordering the labelled sets is statable; `mergeSemanticResults` applies
it to the two fixed orders of the source. -/

structure FEntry where
  prod : Product
  sources : List String
deriving DecidableEq, Repr

/-- JavaScript `Set.prototype.add` on an insertion-ordered list. -/
def addSource (srcs : List String) (l : String) : List String :=
  if l ∈ srcs then srcs else srcs ++ [l]

/-- In-place update of one entry: add the weighted score and the label
when the skus agree, leave the entry alone otherwise. -/
def bumpEntry (label : String) (w : Rat) (p : Product) (e : FEntry) : FEntry :=
  if e.prod.sku = p.sku then
    { prod := { e.prod with score := e.prod.score + p.score * w },
      sources := addSource e.sources label }
  else e

/-- One `Map` update of the `addProducts` helper. -/
def upsert (label : String) (w : Rat) (st : List FEntry) (p : Product) : List FEntry :=
  if st.any (fun e => e.prod.sku = p.sku) then st.map (bumpEntry label w p)
  else st ++ [{ prod := { p with score := p.score * w }, sources := [label] }]

/-- The `addProducts` helper for one labelled set. -/
def addProducts (label : String) (w : Rat) (st : List FEntry)
    (ps : List Product) : List FEntry :=
  ps.foldl (upsert label w) st

/-- A labelled, weighted result set: label, weight, products. -/
abbrev LabeledSet := String × Rat × List Product

/-- Accumulation over a list of labelled sets, starting from the empty map. -/
def fuseState (sets : List LabeledSet) : List FEntry :=
  sets.foldl (fun st t => addProducts t.1 t.2.1 st t.2.2) []

/-- The cross-strategy agreement boost: entries with more than one source
label have their score multiplied by `(1 + 0.1 * |sources|)`. -/
def applyAgreementBoost (e : FEntry) : FEntry :=
  if e.sources.length > 1 then
    { e with prod := { e.prod with
        score := e.prod.score * (1 + (1/10 : Rat) * e.sources.length) } }
  else e

/-- Stable insertion sort: each element is inserted after every element
it is not strictly ordered before.  `lt a b` means a must precede b.
This is extensionally the ECMAScript stable `Array.prototype.sort` for
the consistent comparators the source uses. -/
def insertBy (lt : Product → Product → Bool) (p : Product) : List Product → List Product
  | [] => [p]
  | q :: qs => if lt p q then p :: q :: qs else q :: insertBy lt p qs

/-- JavaScript stable sort with comparator-induced strict order `lt`. -/
def jsSortBy (lt : Product → Product → Bool) (l : List Product) : List Product :=
  l.foldl (fun acc p => insertBy lt p acc) []

/-- Strict order of the comparator `(a, b) => b.score - a.score`. -/
def scoreBefore (a b : Product) : Bool := b.score < a.score

/-- Fusion of a list of labelled sets: accumulate, boost agreement, drop
provenance, sort descending by score. -/
def fuseList (sets : List LabeledSet) : List Product :=
  jsSortBy scoreBefore (((fuseState sets).map applyAgreementBoost).map FEntry.prod)

/-- Whether the query carries both a dietary and an occasion concept. -/
def hasMultipleConcepts (concepts : SemanticConcepts) : Bool :=
  !concepts.dietary.isEmpty && !concepts.occasions.isEmpty

/-- The two fixed label orders of `mergeSemanticResults` with their
weights. -/
def mergeSets (vectorResults keywordResults conceptResults : List Product)
    (concepts : SemanticConcepts) : List LabeledSet :=
  if hasMultipleConcepts concepts then
    [("concept", 4/10, conceptResults), ("keyword", 35/100, keywordResults),
     ("vector", 25/100, vectorResults)]
  else
    [("vector", 5/10, vectorResults), ("keyword", 35/100, keywordResults),
     ("concept", 15/100, conceptResults)]

/-- `mergeSemanticResults`.  The `salesBoost` parameter is accepted and
unused, as in the source. -/
def mergeSemanticResults (vectorResults keywordResults conceptResults : List Product)
    (concepts : SemanticConcepts) (salesBoost : Rat) : List Product :=
  fuseList (mergeSets vectorResults keywordResults conceptResults concepts)

/-! ## route.ts : semantic orchestration and the POST handler -/

/-- `performSemanticSearch`: without an embedding it degrades to the
keyword executor (whose error, if any, propagates); otherwise it runs the
up-to-three branches (each already total) and fuses them.  The
`Promise.allSettled` join of the source is modelled by evaluating the
branch functions in order. -/
def performSemanticSearch (env : Env) (o : SearchOptions) :
    Except String (List Product) × List SearchParams :=
  match o.queryEmbedding with
  | none => performKeywordSearch env o
  | some emb =>
    if emb.isEmpty then performKeywordSearch env o
    else
      let concepts := extractSemanticConcepts o.query
      let v := performVectorSearch env o
      let k := performConceptAwareKeywordSearch env o concepts
      let c :=
        if !concepts.dietary.isEmpty && !concepts.occasions.isEmpty then
          performConceptCombinationSearch env o concepts
        else ([], [])
      (.ok (mergeSemanticResults v.1 k.1 c.1 concepts (getSalesBoost o)),
       v.2 ++ k.2 ++ c.2)

/-- Strict order of the `sortByStockStatus` comparator: in-stock first,
then descending score. -/
def stockBefore (a b : Product) : Bool :=
  if a.is_in_stock ≠ b.is_in_stock then a.is_in_stock else b.score < a.score

/-- `sortByStockStatus`. -/
def sortByStockStatus (products : List Product) : List Product :=
  jsSortBy stockBefore products

/-- The `SearchResponse` interface of search-types.ts (the wall-clock
`searchTime` diagnostic is not modelled). -/
structure SearchResponse where
  success : Bool
  results : List Product
  count : Nat
  strategy : Option SearchStrategy := none
  suggestedChips : Option (List String) := none
  error : Option String := none
deriving DecidableEq, Repr

/-- The limit clamping the POST handler applies to the request body. -/
def postOptions (body : SearchOptions) : SearchOptions :=
  { body with limit := some (min (jsOrNat body.limit DEFAULT_LIMIT) MAX_LIMIT) }

/-- The strategy switch of the POST handler.  The exact-match executor
never fails (it degrades to the fallback search); the semantic executor
fails only through its keyword degradation; the keyword executor
rethrows. -/
def dispatch (env : Env) (options : SearchOptions) (analysis : AnalysisResult) :
    Except String (List Product) × List SearchParams :=
  match analysis.strategy with
  | .exactMatch =>
    let r := performExactMatchSearch env options analysis
    (.ok r.1, r.2)
  | .semantic => performSemanticSearch env options
  | .keyword => performKeywordSearch env options

/-- The POST handler of route.ts.  The request body is the options
record; `stockPrioritySetting` stands for any `stockPriority` field a
caller puts in the body — the route reads no such field, which the model
makes explicit by not using the argument.  The limit is clamped as in the
source, the analyzer picks the strategy, the matching executor runs, and
a keyword-executor error is caught at this boundary and turned into a
`success := false` response. -/
def POST (env : Env) (body : SearchOptions) (stockPrioritySetting : Bool) :
    SearchResponse × List SearchParams :=
  let options : SearchOptions := postOptions body
  let analysis := analyze options.query
  match dispatch env options analysis with
  | (.ok results, tr) =>
    let results := sortByStockStatus results
    ({ success := true, results := results, count := results.length,
       strategy := some analysis.strategy,
       suggestedChips := some analysis.suggestedChips }, tr)
  | (.error m, tr) =>
    ({ success := false, results := [], count := 0, error := some m }, tr)

/-! ## Sorting lemmas

`jsSortBy lt` permutes its input and, when `lt` is asymmetric and
transitive, yields a list pairwise ordered by the negation of the
reversed comparator. -/

theorem insertBy_perm (lt : Product → Product → Bool) (p : Product) (l : List Product) :
    List.Perm (insertBy lt p l) (p :: l) := by
  induction l with
  | nil => simp [insertBy]
  | cons q qs ih =>
    simp only [insertBy]
    split
    · exact List.Perm.refl _
    · exact ((ih.cons q).trans (List.Perm.swap p q qs))

theorem jsSortBy_perm (lt : Product → Product → Bool) (l : List Product) :
    List.Perm (jsSortBy lt l) l := by
  suffices h : ∀ acc : List Product,
      List.Perm (l.foldl (fun acc p => insertBy lt p acc) acc) (acc ++ l) by
    simpa [jsSortBy] using h []
  induction l with
  | nil => intro acc; simp
  | cons p ps ih =>
    intro acc
    simp only [List.foldl_cons]
    refine (ih (insertBy lt p acc)).trans ?_
    refine (((insertBy_perm lt p acc).append_right ps).trans ?_)
    exact (List.perm_middle).symm

theorem mem_insertBy {lt : Product → Product → Bool} {p x : Product} {l : List Product} :
    x ∈ insertBy lt p l ↔ x = p ∨ x ∈ l := by
  have := (insertBy_perm lt p l).mem_iff (a := x)
  simpa using this

theorem insertBy_pairwise (lt : Product → Product → Bool)
    (hasym : ∀ a b, lt a b = true → lt b a = false)
    (htrans : ∀ a b c, lt a b = true → lt b c = true → lt a c = true)
    {p : Product} {l : List Product}
    (hl : l.Pairwise (fun a b => lt b a = false)) :
    (insertBy lt p l).Pairwise (fun a b => lt b a = false) := by
  induction l with
  | nil => simp [insertBy]
  | cons q qs ih =>
    rcases List.pairwise_cons.mp hl with ⟨hq, hqs⟩
    simp only [insertBy]
    split
    · rename_i hlt
      refine List.pairwise_cons.mpr ⟨?_, hl⟩
      intro x hx
      rcases List.mem_cons.mp hx with rfl | hx
      · exact hasym _ _ hlt
      · cases hb : lt x p with
        | false => rfl
        | true =>
          have hxq : lt x q = true := htrans x p q hb hlt
          rw [hq x hx] at hxq
          exact hxq.symm
    · rename_i hnlt
      refine List.pairwise_cons.mpr ⟨?_, ih hqs⟩
      intro y hy
      rcases mem_insertBy.mp hy with rfl | hy
      · simpa using hnlt
      · exact hq y hy

theorem jsSortBy_pairwise (lt : Product → Product → Bool)
    (hasym : ∀ a b, lt a b = true → lt b a = false)
    (htrans : ∀ a b c, lt a b = true → lt b c = true → lt a c = true)
    (l : List Product) :
    (jsSortBy lt l).Pairwise (fun a b => lt b a = false) := by
  suffices h : ∀ acc : List Product, acc.Pairwise (fun a b => lt b a = false) →
      (l.foldl (fun acc p => insertBy lt p acc) acc).Pairwise (fun a b => lt b a = false) by
    exact h [] (by simp)
  induction l with
  | nil => intro acc hacc; simpa using hacc
  | cons p ps ih =>
    intro acc hacc
    simp only [List.foldl_cons]
    exact ih _ (insertBy_pairwise lt hasym htrans hacc)

theorem scoreBefore_asymm (a b : Product) (h : scoreBefore a b = true) :
    scoreBefore b a = false := by
  simp only [scoreBefore, decide_eq_true_eq] at h
  simp only [scoreBefore, decide_eq_false_iff_not]
  linarith

theorem scoreBefore_trans (a b c : Product) (hab : scoreBefore a b = true)
    (hbc : scoreBefore b c = true) : scoreBefore a c = true := by
  simp only [scoreBefore, decide_eq_true_eq] at *
  linarith

theorem stockBefore_asymm (a b : Product) (h : stockBefore a b = true) :
    stockBefore b a = false := by
  cases ha : a.is_in_stock <;> cases hb : b.is_in_stock <;>
    simp [stockBefore, ha, hb] at h ⊢ <;> linarith

theorem stockBefore_trans (a b c : Product) (hab : stockBefore a b = true)
    (hbc : stockBefore b c = true) : stockBefore a c = true := by
  cases ha : a.is_in_stock <;> cases hb : b.is_in_stock <;> cases hc : c.is_in_stock <;>
    simp [stockBefore, ha, hb, hc] at * <;> linarith

/-! ## Fusion characterisation

`fuseState` is characterised pointwise: for each sku, the accumulated
score is the weighted sum of that sku's scores over the labelled sets,
and the source list is the first-occurrence deduplication of the labels
of the sets containing the sku. -/

/-- Skus of the accumulated entries, in insertion order. -/
def entrySkus (st : List FEntry) : List String := st.map (fun e => e.prod.sku)

/-- Whether a result set contains a product with the given sku. -/
def hasSku (s : String) (ps : List Product) : Bool := ps.any (fun p => p.sku = s)

/-- Whether the accumulator has an entry for the given sku. -/
def hasEntry (s : String) (st : List FEntry) : Bool := st.any (fun e => e.prod.sku = s)

/-- Accumulated score for a sku (0 when absent; with duplicate-free
entries, the score of the unique entry). -/
def scoreAt (s : String) (st : List FEntry) : Rat :=
  ((st.filter (fun e => e.prod.sku = s)).map (fun e => e.prod.score)).sum

/-- Accumulated source labels for a sku ([] when absent). -/
def sourcesAt (s : String) (st : List FEntry) : List String :=
  ((st.filter (fun e => e.prod.sku = s)).map FEntry.sources).flatten

/-- Total score mass a result set carries for one sku; on a set with
duplicate-free skus this is the per-product score of the unique product
with that sku, or 0. -/
def skuScores (s : String) (ps : List Product) : Rat :=
  ((ps.filter (fun p => p.sku = s)).map Product.score).sum

theorem hasEntry_iff {s : String} {st : List FEntry} :
    hasEntry s st = true ↔ s ∈ entrySkus st := by
  simp only [hasEntry, List.any_eq_true, decide_eq_true_eq, entrySkus, List.mem_map]

theorem not_hasEntry_forall {s : String} {st : List FEntry}
    (h : hasEntry s st = false) : ∀ e ∈ st, ¬ (e.prod.sku = s) := by
  intro e he hs
  have : hasEntry s st = true := by
    simp only [hasEntry, List.any_eq_true]
    exact ⟨e, he, by simpa using hs⟩
  rw [this] at h
  cases h

theorem scoreAt_eq_zero_of_not_hasEntry {s : String} {st : List FEntry}
    (h : hasEntry s st = false) : scoreAt s st = 0 := by
  have hnil : st.filter (fun e => e.prod.sku = s) = [] := by
    refine List.filter_eq_nil_iff.mpr ?_
    intro e he
    simpa using not_hasEntry_forall h e he
  simp [scoreAt, hnil]

theorem sourcesAt_eq_nil_of_not_hasEntry {s : String} {st : List FEntry}
    (h : hasEntry s st = false) : sourcesAt s st = [] := by
  have hnil : st.filter (fun e => e.prod.sku = s) = [] := by
    refine List.filter_eq_nil_iff.mpr ?_
    intro e he
    simpa using not_hasEntry_forall h e he
  simp [sourcesAt, hnil]

theorem exists_filter_single {s : String} {st : List FEntry}
    (hnd : (entrySkus st).Nodup) (h : hasEntry s st = true) :
    ∃ e, e ∈ st ∧ e.prod.sku = s ∧ st.filter (fun x => x.prod.sku = s) = [e] := by
  induction st with
  | nil => simp [hasEntry] at h
  | cons e es ih =>
    simp only [entrySkus, List.map_cons, List.nodup_cons] at hnd
    by_cases he : e.prod.sku = s
    · refine ⟨e, List.mem_cons_self e es, he, ?_⟩
      have hnil : es.filter (fun x => x.prod.sku = s) = [] := by
        refine List.filter_eq_nil_iff.mpr ?_
        intro x hx
        simp only [decide_eq_true_eq]
        intro hxs
        exact hnd.1 (by
          simp only [entrySkus, List.mem_map] at *
          exact ⟨x, hx, by rw [hxs, he]⟩)
      simp [List.filter_cons, he, hnil]
    · have h' : hasEntry s es = true := by
        simp only [hasEntry, List.any_cons] at h
        rcases Bool.or_eq_true_iff.mp h with h1 | h1
        · exact absurd (by simpa using h1) he
        · exact h1
      obtain ⟨x, hx, hxs, hfil⟩ := ih hnd.2 h'
      exact ⟨x, List.mem_cons_of_mem _ hx, hxs, by simp [List.filter_cons, he, hfil]⟩

theorem upsert_skus (label : String) (w : Rat) (st : List FEntry) (p : Product) :
    entrySkus (upsert label w st p) =
      if hasEntry p.sku st then entrySkus st else entrySkus st ++ [p.sku] := by
  simp only [upsert, hasEntry]
  split
  · simp only [entrySkus, List.map_map]
    refine List.map_congr_left ?_
    intro e _
    by_cases he : e.prod.sku = p.sku <;> simp [bumpEntry, he]
  · simp [entrySkus]

theorem upsert_nodup (label : String) (w : Rat) {st : List FEntry} (p : Product)
    (hnd : (entrySkus st).Nodup) : (entrySkus (upsert label w st p)).Nodup := by
  rw [upsert_skus]
  split
  · exact hnd
  · rename_i hc
    have hnm : p.sku ∉ entrySkus st := fun hm => hc (hasEntry_iff.mpr hm)
    simp [List.nodup_append, hnd, hnm]

theorem upsert_hasEntry (label : String) (w : Rat) (st : List FEntry) (p : Product)
    (s : String) :
    hasEntry s (upsert label w st p) = (hasEntry s st || decide (p.sku = s)) := by
  have hmem : s ∈ entrySkus (upsert label w st p) ↔
      s ∈ entrySkus st ∨ p.sku = s := by
    rw [upsert_skus]
    split
    · rename_i hin
      constructor
      · exact Or.inl
      · rintro (hm | hm)
        · exact hm
        · rw [← hm]; exact hasEntry_iff.mp hin
    · simp [eq_comm]
  rcases hc : hasEntry s (upsert label w st p) with _ | _
  · rw [Bool.eq_false_iff] at hc
    rw [eq_comm, Bool.or_eq_false_iff]
    constructor
    · rw [Bool.eq_false_iff]
      intro hs
      exact hc (hasEntry_iff.mpr (hmem.mpr (Or.inl (hasEntry_iff.mp hs))))
    · simp only [decide_eq_false_iff_not]
      intro hps
      exact hc (hasEntry_iff.mpr (hmem.mpr (Or.inr hps)))
  · rw [eq_comm, Bool.or_eq_true_iff]
    rcases hmem.mp (hasEntry_iff.mp hc) with hm | hm
    · exact Or.inl (hasEntry_iff.mpr hm)
    · exact Or.inr (by simpa using hm)

theorem mem_addSource {x l : String} {srcs : List String} :
    x ∈ addSource srcs l ↔ x ∈ srcs ∨ x = l := by
  simp only [addSource]
  split
  · rename_i hm
    constructor
    · exact Or.inl
    · rintro (h | rfl)
      · exact h
      · exact hm
  · simp

theorem mem_addSource_self (srcs : List String) (l : String) : l ∈ addSource srcs l := by
  simp [mem_addSource]

theorem addSource_idem (srcs : List String) (l : String) :
    addSource (addSource srcs l) l = addSource srcs l := by
  rw [addSource, if_pos (mem_addSource_self srcs l)]

theorem bumpEntry_sku (label : String) (w : Rat) (p : Product) (e : FEntry) :
    (bumpEntry label w p e).prod.sku = e.prod.sku := by
  by_cases he : e.prod.sku = p.sku <;> simp [bumpEntry, he]

theorem filter_map_sku_preserving (f : FEntry → FEntry)
    (hf : ∀ x, (f x).prod.sku = x.prod.sku) (st : List FEntry) (s : String) :
    (st.map f).filter (fun e => e.prod.sku = s) =
      (st.filter (fun e => e.prod.sku = s)).map f := by
  induction st with
  | nil => rfl
  | cons x xs ih =>
    simp only [List.map_cons, List.filter_cons, hf x]
    by_cases hx : x.prod.sku = s
    · simp [hx, ih]
    · simp [hx, ih]

theorem upsert_scoreAt (label : String) (w : Rat) {st : List FEntry} (p : Product)
    (s : String) (hnd : (entrySkus st).Nodup) :
    scoreAt s (upsert label w st p) =
      scoreAt s st + (if p.sku = s then p.score * w else 0) := by
  by_cases hpos : hasEntry p.sku st = true
  · obtain ⟨e, hmem, hesku, hfil⟩ := exists_filter_single hnd hpos
    rw [upsert, if_pos (by simpa [hasEntry] using hpos)]
    simp only [scoreAt]
    rw [filter_map_sku_preserving (bumpEntry label w p) (bumpEntry_sku label w p)]
    by_cases hps : p.sku = s
    · rw [← hps, hfil]
      simp [bumpEntry, hesku]
    · have hmap : (st.filter (fun x => x.prod.sku = s)).map (bumpEntry label w p) =
          st.filter (fun x => x.prod.sku = s) := by
        conv_rhs => rw [← List.map_id (st.filter (fun x => x.prod.sku = s))]
        refine List.map_congr_left ?_
        intro x hx
        have hxs : x.prod.sku = s := by simpa using (List.mem_filter.mp hx).2
        have hxp : ¬ x.prod.sku = p.sku := fun hc => hps (by rw [← hc, hxs])
        simp [bumpEntry, hxp]
      rw [hmap]
      simp [hps]
  · rw [upsert, if_neg (by simpa [hasEntry] using hpos)]
    simp only [scoreAt, List.filter_append, List.map_append, List.sum_append]
    congr 1
    by_cases hps : p.sku = s
    · simp [List.filter_cons, hps]
    · simp [List.filter_cons, hps]

theorem upsert_sourcesAt (label : String) (w : Rat) {st : List FEntry} (p : Product)
    (s : String) (hnd : (entrySkus st).Nodup) :
    sourcesAt s (upsert label w st p) =
      if p.sku = s then addSource (sourcesAt s st) label else sourcesAt s st := by
  by_cases hpos : hasEntry p.sku st = true
  · obtain ⟨e, hmem, hesku, hfil⟩ := exists_filter_single hnd hpos
    rw [upsert, if_pos (by simpa [hasEntry] using hpos)]
    simp only [sourcesAt]
    rw [filter_map_sku_preserving (bumpEntry label w p) (bumpEntry_sku label w p)]
    by_cases hps : p.sku = s
    · rw [← hps, hfil]
      simp [bumpEntry, hesku]
    · have hmap : (st.filter (fun x => x.prod.sku = s)).map (bumpEntry label w p) =
          st.filter (fun x => x.prod.sku = s) := by
        conv_rhs => rw [← List.map_id (st.filter (fun x => x.prod.sku = s))]
        refine List.map_congr_left ?_
        intro x hx
        have hxs : x.prod.sku = s := by simpa using (List.mem_filter.mp hx).2
        have hxp : ¬ x.prod.sku = p.sku := fun hc => hps (by rw [← hc, hxs])
        simp [bumpEntry, hxp]
      rw [hmap]
      simp [hps]
  · rw [upsert, if_neg (by simpa [hasEntry] using hpos)]
    by_cases hps : p.sku = s
    · have hz : sourcesAt s st = [] := by
        refine sourcesAt_eq_nil_of_not_hasEntry ?_
        rw [← hps]
        exact Bool.eq_false_iff.mpr hpos
      simp only [sourcesAt, List.filter_append, List.map_append, List.flatten_append]
      simp only [sourcesAt] at hz
      rw [hz]
      simp [List.filter_cons, hps, addSource]
    · simp only [sourcesAt, List.filter_append, List.map_append, List.flatten_append]
      simp [List.filter_cons, hps]

theorem addProducts_nodup (label : String) (w : Rat) (ps : List Product) :
    ∀ st : List FEntry, (entrySkus st).Nodup →
      (entrySkus (addProducts label w st ps)).Nodup := by
  induction ps with
  | nil => intro st h; simpa [addProducts] using h
  | cons p rest ih =>
    intro st h
    simpa [addProducts] using ih (upsert label w st p) (upsert_nodup label w p h)

theorem addProducts_hasEntry (label : String) (w : Rat) (ps : List Product) (s : String) :
    ∀ st : List FEntry,
      hasEntry s (addProducts label w st ps) = (hasEntry s st || hasSku s ps) := by
  induction ps with
  | nil => intro st; simp [addProducts, hasSku]
  | cons p rest ih =>
    intro st
    have h1 : addProducts label w st (p :: rest) =
        addProducts label w (upsert label w st p) rest := rfl
    rw [h1, ih, upsert_hasEntry]
    simp [hasSku, List.any_cons, Bool.or_assoc]

theorem addProducts_scoreAt (label : String) (w : Rat) (ps : List Product) (s : String) :
    ∀ st : List FEntry, (entrySkus st).Nodup →
      scoreAt s (addProducts label w st ps) = scoreAt s st + w * skuScores s ps := by
  induction ps with
  | nil => intro st _; simp [addProducts, skuScores]
  | cons p rest ih =>
    intro st h
    have h1 : addProducts label w st (p :: rest) =
        addProducts label w (upsert label w st p) rest := rfl
    rw [h1, ih (upsert label w st p) (upsert_nodup label w p h), upsert_scoreAt label w p s h]
    have h2 : skuScores s (p :: rest) =
        (if p.sku = s then p.score else 0) + skuScores s rest := by
      by_cases hps : p.sku = s <;> simp [skuScores, List.filter_cons, hps]
    rw [h2]
    by_cases hps : p.sku = s <;> simp [hps] <;> ring

theorem addProducts_sourcesAt (label : String) (w : Rat) (ps : List Product) (s : String) :
    ∀ st : List FEntry, (entrySkus st).Nodup →
      sourcesAt s (addProducts label w st ps) =
        if hasSku s ps then addSource (sourcesAt s st) label else sourcesAt s st := by
  induction ps with
  | nil => intro st _; simp [addProducts, hasSku]
  | cons p rest ih =>
    intro st h
    have h1 : addProducts label w st (p :: rest) =
        addProducts label w (upsert label w st p) rest := rfl
    rw [h1, ih (upsert label w st p) (upsert_nodup label w p h), upsert_sourcesAt label w p s h]
    have h2 : hasSku s (p :: rest) = (decide (p.sku = s) || hasSku s rest) := by
      simp [hasSku, List.any_cons]
    rw [h2]
    by_cases hps : p.sku = s <;> by_cases hr : hasSku s rest = true <;>
      simp [hps, hr, addSource_idem]

/-! ### Folding over all labelled sets -/

/-- The weighted score mass accumulated for a sku over labelled sets. -/
def weightedSum (s : String) (sets : List LabeledSet) : Rat :=
  (sets.map (fun t => t.2.1 * skuScores s t.2.2)).sum

/-- The labels of the sets containing a sku, in processing order. -/
def labelsFor (s : String) (sets : List LabeledSet) : List String :=
  (sets.filter (fun t => hasSku s t.2.2)).map (fun t => t.1)

theorem fuseState_aux_nodup (sets : List LabeledSet) :
    ∀ st : List FEntry, (entrySkus st).Nodup →
      (entrySkus (sets.foldl (fun st t => addProducts t.1 t.2.1 st t.2.2) st)).Nodup := by
  induction sets with
  | nil => intro st h; simpa using h
  | cons t rest ih =>
    intro st h
    exact ih _ (addProducts_nodup t.1 t.2.1 t.2.2 st h)

theorem fuseState_nodup (sets : List LabeledSet) :
    (entrySkus (fuseState sets)).Nodup :=
  fuseState_aux_nodup sets [] (by simp [entrySkus])

theorem fuseState_hasEntry (sets : List LabeledSet) (s : String) :
    hasEntry s (fuseState sets) = sets.any (fun t => hasSku s t.2.2) := by
  suffices h : ∀ st : List FEntry,
      hasEntry s (sets.foldl (fun st t => addProducts t.1 t.2.1 st t.2.2) st) =
        (hasEntry s st || sets.any (fun t => hasSku s t.2.2)) by
    have := h []
    simpa [fuseState, hasEntry] using this
  induction sets with
  | nil => intro st; simp
  | cons t rest ih =>
    intro st
    simp only [List.foldl_cons, List.any_cons]
    rw [ih, addProducts_hasEntry]
    simp [Bool.or_assoc]

theorem fuseState_scoreAt (sets : List LabeledSet) (s : String) :
    scoreAt s (fuseState sets) = weightedSum s sets := by
  suffices h : ∀ st : List FEntry, (entrySkus st).Nodup →
      scoreAt s (sets.foldl (fun st t => addProducts t.1 t.2.1 st t.2.2) st) =
        scoreAt s st + weightedSum s sets by
    have := h [] (by simp [entrySkus])
    simpa [fuseState, scoreAt] using this
  induction sets with
  | nil => intro st _; simp [weightedSum]
  | cons t rest ih =>
    intro st h
    simp only [List.foldl_cons]
    rw [ih _ (addProducts_nodup t.1 t.2.1 t.2.2 st h), addProducts_scoreAt t.1 t.2.1 t.2.2 s st h]
    simp [weightedSum]
    ring

theorem fuseState_sourcesAt (sets : List LabeledSet) (s : String) :
    sourcesAt s (fuseState sets) = (labelsFor s sets).foldl addSource [] := by
  suffices h : ∀ st : List FEntry, (entrySkus st).Nodup →
      sourcesAt s (sets.foldl (fun st t => addProducts t.1 t.2.1 st t.2.2) st) =
        (labelsFor s sets).foldl addSource (sourcesAt s st) by
    have := h [] (by simp [entrySkus])
    simpa [fuseState, sourcesAt] using this
  induction sets with
  | nil => intro st _; simp [labelsFor]
  | cons t rest ih =>
    intro st h
    simp only [List.foldl_cons]
    rw [ih _ (addProducts_nodup t.1 t.2.1 t.2.2 st h),
        addProducts_sourcesAt t.1 t.2.1 t.2.2 s st h]
    by_cases ht : hasSku s t.2.2 = true
    · simp [labelsFor, List.filter_cons, ht]
    · simp [labelsFor, List.filter_cons, ht]

/-! ### First-occurrence deduplication of the source labels -/

theorem foldl_addSource_nodup (l : List String) :
    ∀ acc : List String, acc.Nodup → (l.foldl addSource acc).Nodup := by
  induction l with
  | nil => intro acc h; simpa using h
  | cons a rest ih =>
    intro acc h
    refine ih (addSource acc a) ?_
    simp only [addSource]
    split
    · exact h
    · rename_i hm
      simp [List.nodup_append, h, hm]

theorem mem_foldl_addSource (l : List String) (x : String) :
    ∀ acc : List String, x ∈ l.foldl addSource acc ↔ x ∈ acc ∨ x ∈ l := by
  induction l with
  | nil => intro acc; simp
  | cons a rest ih =>
    intro acc
    simp only [List.foldl_cons, ih (addSource acc a), mem_addSource, List.mem_cons]
    tauto

theorem foldl_addSource_of_nodup (l : List String) (h : l.Nodup) :
    ∀ acc : List String, (∀ x ∈ l, x ∉ acc) → l.foldl addSource acc = acc ++ l := by
  induction l with
  | nil => intro acc _; simp
  | cons a rest ih =>
    intro acc hdisj
    simp only [List.nodup_cons] at h
    have ha : addSource acc a = acc ++ [a] := by
      rw [addSource, if_neg (hdisj a (List.mem_cons_self a rest))]
    simp only [List.foldl_cons, ha]
    rw [ih h.2 (acc ++ [a]) ?_]
    · simp
    · intro x hx
      simp only [List.mem_append, List.mem_singleton]
      rintro (hc | rfl)
      · exact hdisj x (List.mem_cons_of_mem a hx) hc
      · exact h.1 hx

theorem foldl_addSource_nil_of_nodup (l : List String) (h : l.Nodup) :
    l.foldl addSource [] = l := by
  simpa using foldl_addSource_of_nodup l h [] (by simp)

theorem foldl_addSource_length_eq_card (l : List String) :
    (l.foldl addSource []).length = l.toFinset.card := by
  have hnd := foldl_addSource_nodup l [] (by simp)
  have hfin : (l.foldl addSource []).toFinset = l.toFinset := by
    ext x
    simp [List.mem_toFinset, mem_foldl_addSource]
  rw [← List.toFinset_card_of_nodup hnd, hfin]

/-! ### Entry-level and output-level characterisation -/

theorem fuseState_entry_spec (sets : List LabeledSet) :
    ∀ e ∈ fuseState sets,
      e.prod.score = weightedSum e.prod.sku sets ∧
        e.sources = (labelsFor e.prod.sku sets).foldl addSource [] := by
  intro e he
  have hnd := fuseState_nodup sets
  have hentry : hasEntry e.prod.sku (fuseState sets) = true := by
    simp only [hasEntry, List.any_eq_true]
    exact ⟨e, he, by simp⟩
  obtain ⟨x, hxmem, hxsku, hfil⟩ := exists_filter_single hnd hentry
  have hex : e = x := by
    have hme : e ∈ (fuseState sets).filter (fun y => y.prod.sku = e.prod.sku) :=
      List.mem_filter.mpr ⟨he, by simp⟩
    rw [hfil] at hme
    simpa using hme
  constructor
  · have h2 := fuseState_scoreAt sets e.prod.sku
    rw [scoreAt, hfil] at h2
    simp only [List.map_cons, List.map_nil, List.sum_cons, List.sum_nil, add_zero] at h2
    rw [hex] at h2 ⊢
    exact h2
  · have h2 := fuseState_sourcesAt sets e.prod.sku
    rw [sourcesAt, hfil] at h2
    simp only [List.map_cons, List.map_nil, List.flatten_cons, List.flatten_nil,
      List.append_nil] at h2
    rw [hex] at h2 ⊢
    exact h2

theorem mem_fuseList {sets : List LabeledSet} {p : Product} :
    p ∈ fuseList sets ↔ ∃ e ∈ fuseState sets, p = (applyAgreementBoost e).prod := by
  rw [fuseList]
  rw [(jsSortBy_perm scoreBefore _).mem_iff]
  simp only [List.map_map, List.mem_map, Function.comp]
  constructor
  · rintro ⟨e, he, rfl⟩; exact ⟨e, he, rfl⟩
  · rintro ⟨e, he, rfl⟩; exact ⟨e, he, rfl⟩

theorem applyAgreementBoost_sku (e : FEntry) :
    (applyAgreementBoost e).prod.sku = e.prod.sku := by
  by_cases h : e.sources.length > 1 <;> simp [applyAgreementBoost, h]

theorem fuseList_skus_perm (sets : List LabeledSet) :
    List.Perm ((fuseList sets).map Product.sku) (entrySkus (fuseState sets)) := by
  have h1 := (jsSortBy_perm scoreBefore
    (((fuseState sets).map applyAgreementBoost).map FEntry.prod)).map Product.sku
  refine (h1.trans ?_)
  rw [List.map_map, List.map_map]
  have hc : ((Product.sku ∘ FEntry.prod) ∘ applyAgreementBoost) = fun e => e.prod.sku := by
    funext e
    simp only [Function.comp_apply]
    exact applyAgreementBoost_sku e
  rw [hc]
  have hE : entrySkus (fuseState sets) = (fuseState sets).map (fun e => e.prod.sku) := rfl
  rw [hE]

theorem fuseList_skus_nodup (sets : List LabeledSet) :
    ((fuseList sets).map Product.sku).Nodup :=
  ((fuseList_skus_perm sets).nodup_iff).mpr (fuseState_nodup sets)

theorem fuseList_sorted (sets : List LabeledSet) :
    (fuseList sets).Pairwise (fun a b => b.score ≤ a.score) := by
  have h := jsSortBy_pairwise scoreBefore scoreBefore_asymm scoreBefore_trans
    (((fuseState sets).map applyAgreementBoost).map FEntry.prod)
  rw [fuseList]
  refine h.imp ?_
  intro a b hab
  simpa [scoreBefore, not_lt] using hab

/-- Final per-product score of the fused output: the weighted sum with
the agreement boost applied when more than one distinct label
contributed. -/
def fusedScore (s : String) (sets : List LabeledSet) : Rat :=
  let n := ((labelsFor s sets).foldl addSource []).length
  if 1 < n then weightedSum s sets * (1 + (1/10 : Rat) * n) else weightedSum s sets

theorem fuseList_score (sets : List LabeledSet) :
    ∀ p ∈ fuseList sets, p.score = fusedScore p.sku sets := by
  intro p hp
  obtain ⟨e, he, rfl⟩ := mem_fuseList.mp hp
  obtain ⟨hscore, hsrc⟩ := fuseState_entry_spec sets e he
  rw [applyAgreementBoost_sku]
  simp only [fusedScore]
  rw [← hsrc]
  by_cases hn : 1 < e.sources.length
  · rw [if_pos hn, applyAgreementBoost, if_pos (by exact hn)]
    simp only
    rw [hscore]
  · rw [if_neg hn, applyAgreementBoost, if_neg (by exact hn)]
    exact hscore

/-! ### Bridging to the per-product reading of the claims

On a result set whose skus are duplicate-free, the score mass
`skuScores` for a sku is exactly the score of the unique product carrying
it (`find?`), which is how the specification phrases fusion. -/

/-- Stated from the claim wording: the contribution of one labelled
result set to a sku is that set per-product score times the set weight
(0 when the set does not contain the sku). -/
def branchContribution (w : Rat) (ps : List Product) (s : String) : Rat :=
  match ps.find? (fun p => p.sku = s) with
  | some p => p.score * w
  | none => 0

/-- Number of the three branches whose result set contains the sku. -/
def branchesContaining (s : String) (v k c : List Product) : Nat :=
  (if hasSku s v then 1 else 0) + (if hasSku s k then 1 else 0) +
    (if hasSku s c then 1 else 0)

/-- Stated from the claim wording: the weighted per-branch sum with the
claimed weight policy, multiplied by `(1 + 0.1 * n)` when the number `n`
of contributing source labels exceeds 1. -/
def claimedFusedScore (v k c : List Product) (cs : SemanticConcepts) (s : String) : Rat :=
  let wv : Rat := if hasMultipleConcepts cs then 25/100 else 5/10
  let wk : Rat := 35/100
  let wc : Rat := if hasMultipleConcepts cs then 4/10 else 15/100
  let base := branchContribution wv v s + branchContribution wk k s +
    branchContribution wc c s
  let n := branchesContaining s v k c
  if 1 < n then base * (1 + (1/10 : Rat) * n) else base

theorem skuScores_eq_branchContribution (w : Rat) {ps : List Product}
    (h : (ps.map Product.sku).Nodup) (s : String) :
    w * skuScores s ps = branchContribution w ps s := by
  induction ps with
  | nil => simp [skuScores, branchContribution]
  | cons q rest ih =>
    simp only [List.map_cons, List.nodup_cons] at h
    by_cases hq : q.sku = s
    · have hrest : skuScores s rest = 0 := by
        have hnil : rest.filter (fun x => x.sku = s) = [] := by
          refine List.filter_eq_nil_iff.mpr ?_
          intro x hx
          simp only [decide_eq_true_eq]
          intro hxs
          exact h.1 (by
            simp only [List.mem_map]
            exact ⟨x, hx, by rw [hxs, hq]⟩)
        simp [skuScores, hnil]
      have hfind : (q :: rest).find? (fun p => p.sku = s) = some q :=
        List.find?_cons_of_pos _ (by simpa using hq)
      simp only [branchContribution, hfind]
      have hsplit : skuScores s (q :: rest) = q.score + skuScores s rest := by
        simp [skuScores, List.filter_cons, hq]
      rw [hsplit, hrest]
      ring
    · have hfind : (q :: rest).find? (fun p => p.sku = s) =
          rest.find? (fun p => p.sku = s) :=
        List.find?_cons_of_neg _ (by simpa using hq)
      simp only [branchContribution, hfind]
      have hIH := ih h.2
      simp only [branchContribution] at hIH
      rw [← hIH]
      have hsame : skuScores s (q :: rest) = skuScores s rest := by
        simp [skuScores, List.filter_cons, hq]
      rw [hsame]

theorem exists_filter_single_prod {s : String} {ps : List Product}
    (hnd : (ps.map Product.sku).Nodup) (h : hasSku s ps = true) :
    ∃ p, p ∈ ps ∧ p.sku = s ∧ ps.filter (fun x => x.sku = s) = [p] := by
  induction ps with
  | nil => simp [hasSku] at h
  | cons q rest ih =>
    simp only [List.map_cons, List.nodup_cons] at hnd
    by_cases hq : q.sku = s
    · refine ⟨q, List.mem_cons_self q rest, hq, ?_⟩
      have hnil : rest.filter (fun x => x.sku = s) = [] := by
        refine List.filter_eq_nil_iff.mpr ?_
        intro x hx
        simp only [decide_eq_true_eq]
        intro hxs
        exact hnd.1 (by
          simp only [List.mem_map]
          exact ⟨x, hx, by rw [hxs, hq]⟩)
      simp [List.filter_cons, hq, hnil]
    · have h' : hasSku s rest = true := by
        simp only [hasSku, List.any_cons] at h
        rcases Bool.or_eq_true_iff.mp h with h1 | h1
        · exact absurd (by simpa using h1) hq
        · exact h1
      obtain ⟨x, hx, hxs, hfil⟩ := ih hnd.2 h'
      exact ⟨x, List.mem_cons_of_mem _ hx, hxs, by simp [List.filter_cons, hq, hfil]⟩

theorem hasSku_fuseList (sets : List LabeledSet) (s : String) :
    hasSku s (fuseList sets) = sets.any (fun t => hasSku s t.2.2) := by
  rw [← fuseState_hasEntry]
  rcases hc : hasEntry s (fuseState sets) with _ | _
  · rw [Bool.eq_false_iff] at hc ⊢
    intro hm
    apply hc
    rw [hasEntry_iff]
    simp only [hasSku, List.any_eq_true, decide_eq_true_eq] at hm
    obtain ⟨p, hp, hps⟩ := hm
    have : p.sku ∈ (fuseList sets).map Product.sku := List.mem_map_of_mem _ hp
    rw [hps] at this
    exact ((fuseList_skus_perm sets).mem_iff).mp this
  · rw [hasEntry_iff] at hc
    have : s ∈ (fuseList sets).map Product.sku :=
      ((fuseList_skus_perm sets).mem_iff).mpr hc
    simp only [List.mem_map] at this
    obtain ⟨p, hp, hps⟩ := this
    simp only [hasSku, List.any_eq_true, decide_eq_true_eq]
    exact ⟨p, hp, hps⟩

theorem skuScores_fuseList (sets : List LabeledSet) (s : String) :
    skuScores s (fuseList sets) =
      if sets.any (fun t => hasSku s t.2.2) then fusedScore s sets else 0 := by
  by_cases hpres : hasSku s (fuseList sets) = true
  · obtain ⟨p, hp, hps, hfil⟩ := exists_filter_single_prod (fuseList_skus_nodup sets) hpres
    rw [if_pos (by rw [← hasSku_fuseList]; exact hpres)]
    rw [skuScores, hfil]
    simp only [List.map_cons, List.map_nil, List.sum_cons, List.sum_nil, add_zero]
    rw [fuseList_score sets p hp, hps]
  · rw [if_neg (by rw [← hasSku_fuseList]; simpa using hpres)]
    have hnil : (fuseList sets).filter (fun x => x.sku = s) = [] := by
      refine List.filter_eq_nil_iff.mpr ?_
      intro x hx
      simp only [decide_eq_true_eq]
      intro hxs
      exact hpres (by
        simp only [hasSku, List.any_eq_true, decide_eq_true_eq]
        exact ⟨x, hx, hxs⟩)
    simp [skuScores, hnil]

theorem labelsFor_mergeSets_length (v k c : List Product) (cs : SemanticConcepts)
    (s : String) :
    ((labelsFor s (mergeSets v k c cs)).foldl addSource []).length =
      branchesContaining s v k c := by
  by_cases hm : hasMultipleConcepts cs = true <;>
    by_cases h1 : hasSku s v = true <;>
    by_cases h2 : hasSku s k = true <;>
    by_cases h3 : hasSku s c = true <;>
    simp [mergeSets, labelsFor, List.filter_cons, branchesContaining, hm, h1, h2, h3,
      addSource]

theorem weightedSum_mergeSets (v k c : List Product) (cs : SemanticConcepts) (s : String)
    (hv : (v.map Product.sku).Nodup) (hk : (k.map Product.sku).Nodup)
    (hc : (c.map Product.sku).Nodup) :
    weightedSum s (mergeSets v k c cs) =
      branchContribution (if hasMultipleConcepts cs then 25/100 else 5/10) v s +
      branchContribution (35/100) k s +
      branchContribution (if hasMultipleConcepts cs then 4/10 else 15/100) c s := by
  by_cases hm : hasMultipleConcepts cs = true
  · simp only [mergeSets, if_pos hm, weightedSum, List.map_cons, List.map_nil,
      List.sum_cons, List.sum_nil, add_zero, hm, if_true]
    rw [skuScores_eq_branchContribution (4/10) hc s,
        skuScores_eq_branchContribution (35/100) hk s,
        skuScores_eq_branchContribution (25/100) hv s]
    ring
  · simp only [mergeSets, if_neg hm, weightedSum, List.map_cons, List.map_nil,
      List.sum_cons, List.sum_nil, add_zero, hm, Bool.false_eq_true, if_false]
    rw [skuScores_eq_branchContribution (15/100) hc s,
        skuScores_eq_branchContribution (35/100) hk s,
        skuScores_eq_branchContribution (5/10) hv s]
    ring

theorem fusedScore_mergeSets (v k c : List Product) (cs : SemanticConcepts) (s : String)
    (hv : (v.map Product.sku).Nodup) (hk : (k.map Product.sku).Nodup)
    (hc : (c.map Product.sku).Nodup) :
    fusedScore s (mergeSets v k c cs) = claimedFusedScore v k c cs s := by
  simp only [fusedScore, claimedFusedScore]
  rw [labelsFor_mergeSets_length, weightedSum_mergeSets v k c cs s hv hk hc]

theorem any_of_perm {sets₁ sets₂ : List LabeledSet} (h : List.Perm sets₁ sets₂)
    (f : LabeledSet → Bool) : sets₁.any f = sets₂.any f := by
  rcases hb : sets₂.any f with _ | _
  · rw [Bool.eq_false_iff] at hb ⊢
    intro hc
    apply hb
    simp only [List.any_eq_true] at hc ⊢
    obtain ⟨t, ht, htf⟩ := hc
    exact ⟨t, h.mem_iff.mp ht, htf⟩
  · simp only [List.any_eq_true] at hb ⊢
    obtain ⟨t, ht, htf⟩ := hb
    exact ⟨t, h.mem_iff.mpr ht, htf⟩

theorem fusedScore_of_perm {sets₁ sets₂ : List LabeledSet}
    (h : List.Perm sets₁ sets₂) (s : String) :
    fusedScore s sets₁ = fusedScore s sets₂ := by
  have hw : weightedSum s sets₁ = weightedSum s sets₂ := by
    simp only [weightedSum]
    exact (h.map (fun t => t.2.1 * skuScores s t.2.2)).sum_eq
  have hlab : List.Perm (labelsFor s sets₁) (labelsFor s sets₂) := by
    simp only [labelsFor]
    exact (h.filter (fun t => hasSku s t.2.2)).map (fun t => t.1)
  have hn : ((labelsFor s sets₁).foldl addSource []).length =
      ((labelsFor s sets₂).foldl addSource []).length := by
    rw [foldl_addSource_length_eq_card, foldl_addSource_length_eq_card]
    congr 1
    ext x
    simp [List.mem_toFinset, hlab.mem_iff]
  simp only [fusedScore]
  rw [hw, hn]

/-! ## Claim C2 -/

/-- C2: for labelled result sets whose skus are duplicate-free, fusion
produces at most one output entry per sku; each sku scores the sum, over
the branches containing it, of that branch per-product score times the
branch weight — concept=0.4, keyword=0.35, vector=0.25 when the query has
both a dietary and an occasion concept, otherwise vector=0.5,
keyword=0.35, concept=0.15 — multiplied by `(1 + 0.1 * n)` when the
number `n` of contributing source labels exceeds 1; the output is sorted
descending by score, and provenance is dropped (the output elements are
plain products). -/
theorem mergeSemanticResults_fusion_spec
    (v k c : List Product) (cs : SemanticConcepts) (sb : Rat)
    (hv : (v.map Product.sku).Nodup) (hk : (k.map Product.sku).Nodup)
    (hc : (c.map Product.sku).Nodup) :
    ((mergeSemanticResults v k c cs sb).map Product.sku).Nodup ∧
    (mergeSemanticResults v k c cs sb).Pairwise (fun a b => b.score ≤ a.score) ∧
    ∀ p ∈ mergeSemanticResults v k c cs sb,
      p.score = claimedFusedScore v k c cs p.sku := by
  simp only [mergeSemanticResults]
  refine ⟨fuseList_skus_nodup _, fuseList_sorted _, ?_⟩
  intro p hp
  rw [fuseList_score _ p hp]
  exact fusedScore_mergeSets v k c cs p.sku hv hk hc

/-- Concrete vector branch for the C2 witness. -/
def fwV : List Product := [{ sku := "A", score := 2 }]

/-- Concrete keyword branch for the C2 witness. -/
def fwK : List Product := [{ sku := "A", score := 4 }, { sku := "B", score := 6 }]

/-- Concrete concept branch for the C2 witness. -/
def fwC : List Product := []

/-- Concepts with neither dietary nor occasion tags. -/
def fwCS : SemanticConcepts :=
  { dietary := [], occasions := [], productTypes := [], modifiers := [],
    traditionalFoods := [] }

/-- Witness for C2 at concrete duplicate-free branches. -/
theorem mergeSemanticResults_fusion_spec_witness :
    ((mergeSemanticResults fwV fwK fwC fwCS (1/2)).map Product.sku).Nodup ∧
    (mergeSemanticResults fwV fwK fwC fwCS (1/2)).Pairwise (fun a b => b.score ≤ a.score) ∧
    ∀ p ∈ mergeSemanticResults fwV fwK fwC fwCS (1/2),
      p.score = claimedFusedScore fwV fwK fwC fwCS p.sku :=
  mergeSemanticResults_fusion_spec fwV fwK fwC fwCS (1/2)
    (by decide) (by decide) (by decide)

/-! ## Claim C9

Fusion is NOT invariant under reordering of the labelled input sets: the
non-score fields of a merged entry are taken from the first set that
inserted the sku, so swapping two sets that share a sku changes the
output (and score ties change the output order as well).  What does hold
is that the sku-to-score assignment of the output is reorder-invariant,
and that a product in exactly 2 of the 3 branches scores 1.2 times the
naive weighted sum. -/

/-- First labelled-set order for the counterexample: the two sets share
the sku `A` but carry different product names. -/
def rxSets₁ : List LabeledSet :=
  [("vector", 5/10, [{ sku := "A", name := "x", score := 1 }]),
   ("keyword", 35/100, [{ sku := "A", name := "y", score := 1 }]),
   ("concept", 15/100, [])]

/-- The same labelled sets with the first two swapped. -/
def rxSets₂ : List LabeledSet :=
  [("keyword", 35/100, [{ sku := "A", name := "y", score := 1 }]),
   ("vector", 5/10, [{ sku := "A", name := "x", score := 1 }]),
   ("concept", 15/100, [])]

/-- Counterexample to C9 as stated: the two orders are a permutation of
each other, yet fusion returns different outputs (the surviving entry
keeps the name of whichever set was processed first). -/
theorem fusion_reorder_counterexample :
    List.Perm rxSets₁ rxSets₂ ∧ fuseList rxSets₁ ≠ fuseList rxSets₂ := by
  constructor
  · simp only [rxSets₁, rxSets₂]
    exact List.Perm.swap _ _ _
  · with_unfolding_all decide

/-- Stated from the claim wording: the weighted per-branch summation
without the agreement boost. -/
def naiveWeightedSum (v k c : List Product) (cs : SemanticConcepts) (s : String) : Rat :=
  branchContribution (if hasMultipleConcepts cs then 25/100 else 5/10) v s +
  branchContribution (35/100) k s +
  branchContribution (if hasMultipleConcepts cs then 4/10 else 15/100) c s

/-- C9 (amended): the sku membership and the sku-to-score assignment of
the fused output are invariant under reordering of the labelled input
sets (each set keeping its own label and weight), and a product appearing
in exactly 2 of the 3 duplicate-free branches ends with its score equal
to 1.2 times the naive weighted summation; the full output (retained
fields and order) is not invariant, as the counterexample shows. -/
theorem fusion_score_reorder_invariant :
    (∀ sets₁ sets₂ : List LabeledSet, List.Perm sets₁ sets₂ →
      (∀ s, hasSku s (fuseList sets₁) = hasSku s (fuseList sets₂)) ∧
      (∀ s, skuScores s (fuseList sets₁) = skuScores s (fuseList sets₂))) ∧
    (∀ (v k c : List Product) (cs : SemanticConcepts) (sb : Rat) (s : String),
      (v.map Product.sku).Nodup → (k.map Product.sku).Nodup →
      (c.map Product.sku).Nodup → branchesContaining s v k c = 2 →
      skuScores s (mergeSemanticResults v k c cs sb) =
        (12/10 : Rat) * naiveWeightedSum v k c cs s) := by
  constructor
  · intro sets₁ sets₂ h
    constructor
    · intro s
      rw [hasSku_fuseList, hasSku_fuseList]
      exact any_of_perm h _
    · intro s
      rw [skuScores_fuseList, skuScores_fuseList,
          any_of_perm h (fun t => hasSku s t.2.2)]
      by_cases hpres : sets₂.any (fun t => hasSku s t.2.2) = true
      · rw [if_pos hpres, if_pos hpres, fusedScore_of_perm h]
      · rw [if_neg hpres, if_neg hpres]
  · intro v k c cs sb s hv hk hc hn
    have hpres : (mergeSets v k c cs).any (fun t => hasSku s t.2.2) = true := by
      have : hasSku s v = true ∨ hasSku s k = true ∨ hasSku s c = true := by
        by_contra hall
        push_neg at hall
        simp only [Bool.not_eq_true] at hall
        rw [branchesContaining, hall.1, hall.2.1, hall.2.2] at hn
        simp at hn
      by_cases hm : hasMultipleConcepts cs = true <;>
        rcases this with h1 | h1 | h1 <;>
        simp [mergeSets, hm, List.any_cons, h1]
    simp only [mergeSemanticResults]
    rw [skuScores_fuseList, if_pos hpres,
        fusedScore_mergeSets v k c cs s hv hk hc]
    simp only [claimedFusedScore, naiveWeightedSum, hn]
    norm_num
    ring

/-- Vector branch for the C9 witness (shares sku `A` with keyword). -/
def rwV : List Product := [{ sku := "A", score := 2 }]

/-- Keyword branch for the C9 witness. -/
def rwK : List Product := [{ sku := "A", score := 4 }]

/-- Witness for C9 (amended) at concrete inputs: the swapped orders give
the same score for sku `A`, and a sku in exactly 2 of the 3 branches
scores 1.2 times the naive weighted sum. -/
theorem fusion_score_reorder_invariant_witness :
    skuScores "A" (fuseList rxSets₁) = skuScores "A" (fuseList rxSets₂) ∧
    skuScores "A" (mergeSemanticResults rwV rwK [] fwCS (1/2)) =
      (12/10 : Rat) * naiveWeightedSum rwV rwK [] fwCS "A" := by
  constructor
  · exact ((fusion_score_reorder_invariant.1 rxSets₁ rxSets₂
      (by simp only [rxSets₁, rxSets₂]; exact List.Perm.swap _ _ _)).2) "A"
  · exact fusion_score_reorder_invariant.2 rwV rwK [] fwCS (1/2) "A"
      (by decide) (by decide) (by decide) (by decide)

/-! ## Claim C3 -/

theorem dropWhile_isWs_of_all {l : List Char}
    (h : ∀ c ∈ l, c.isWhitespace = false) : l.dropWhile isWs = l := by
  cases l with
  | nil => rfl
  | cons c cs =>
    have := h c (List.mem_cons_self c cs)
    simp [List.dropWhile, isWs, this]

theorem jsTrim_of_no_ws {q : String}
    (h : ∀ c ∈ q.data, c.isWhitespace = false) : jsTrim q = q := by
  have h1 : q.data.dropWhile isWs = q.data := dropWhile_isWs_of_all h
  have h2 : (q.data.reverse.dropWhile isWs) = q.data.reverse :=
    dropWhile_isWs_of_all (fun c hc => h c (List.mem_reverse.mp hc))
  show (⟨((q.data.dropWhile isWs).reverse.dropWhile isWs).reverse⟩ : String) = q
  rw [h1, h2, List.reverse_reverse]

/-- C3: every single-token query (no whitespace at all) outside of the
stoplist that matches some identifier pattern is classified EXACT with
confidence 1, identifierType the name of the first matching pattern
(`find?` over the ordered pattern table), no context and no chips. -/
theorem analyze_exact_identifier (q : String)
    (hws : ∀ c ∈ q.data, c.isWhitespace = false)
    (hstop : jsToLower q ∉ commonWords)
    (hpat : productIdPatterns.any (fun pr => pr.2 q) = true) :
    analyze q =
      { strategy := .exactMatch
        confidence := 1
        identifierType := (productIdPatterns.find? (fun pr => pr.2 q)).map Prod.fst
        context := none
        suggestedChips := []
        queryTerms := [q] } := by
  have htrim : jsTrim q = q := jsTrim_of_no_ws hws
  have hsp : strHasChar q ' ' = false := by
    rw [Bool.eq_false_iff]
    intro hc
    have : (' ' : Char) ∈ q.data := by simpa [strHasChar] using hc
    have := hws ' ' this
    simp at this
  have hcw : commonWords.contains (jsToLower q) = false := by
    rw [Bool.eq_false_iff]
    intro hc
    exact hstop (by simpa using hc)
  have hid : isProductIdentifier q = true := by
    rw [isProductIdentifier, hsp, hcw]
    simpa using hpat
  have hfind : ∃ pr, productIdPatterns.find? (fun pr => pr.2 q) = some pr := by
    rcases hf : productIdPatterns.find? (fun pr => pr.2 q) with _ | pr
    · rw [List.find?_eq_none] at hf
      simp only [List.any_eq_true] at hpat
      obtain ⟨pr, hmem, hpr⟩ := hpat
      exact absurd hpr (by simpa using hf pr hmem)
    · exact ⟨pr, hf⟩
  obtain ⟨pr, hf⟩ := hfind
  simp only [analyze, htrim, hid, if_true, getIdentifierType, hf]
  rfl

/-- Witness for C3 at the concrete query of the specification. -/
theorem analyze_exact_identifier_witness :
    analyze "SKU123456" =
      { strategy := .exactMatch
        confidence := 1
        identifierType := some "sku"
        context := none
        suggestedChips := []
        queryTerms := ["SKU123456"] } := by
  have h := analyze_exact_identifier "SKU123456"
    (by decide) (by decide) (by decide)
  rw [h]
  with_unfolding_all decide

/-! ## Claim C8

The chip list is built group by group and then truncated to its first 8
entries.  When all three default groups are present they already fill 10
slots, so the generic brand/price chips (positions 10 to 12) and the
popularity chips never survive the cut in that case — refuting the
claimed `always includes the generic brand/price chips`. -/

/-- Counterexample to C8 as stated: `zz zz` is classified KEYWORD with no
category, attribute or intent match, yet `Premium Brands` is not among
its chips. -/
theorem keyword_chips_counterexample :
    (analyze "zz zz").strategy = .keyword ∧
    "Premium Brands" ∉ (analyze "zz zz").suggestedChips := by
  with_unfolding_all decide

/-- C8 (amended): for every query classified KEYWORD the chip list is the
first 8 entries of the group concatenation (category defaults when no
category matched, attribute defaults when none matched, intent defaults
when none matched, the generic brand/price chips, and the popularity
chips when the query is shorter than 10 characters with context
confidence below 0.3); hence it has length at most 8, contains the
category defaults exactly when no category matched, the attribute
defaults exactly when no attribute matched, and the first intent default
exactly when no intent matched, while the brand/price and popularity
chips survive only as far as the 8-entry cap allows. -/
theorem keyword_chips_spec (q : String)
    (hkw : (analyze q).strategy = .keyword) :
    let ctx := extractContext (jsTrim q)
    let chips := (analyze q).suggestedChips
    chips =
      ((if ctx.categories.isEmpty then
          ["in Snacks", "in Beverages", "in Paper Products", "in Kitchen Equipment"]
        else []) ++
       (if ctx.attributes.isEmpty then ["Organic", "Gluten-Free", "Bulk Size"] else []) ++
       (if ctx.intents.isEmpty then ["for Restaurant", "for Home", "for Catering"] else []) ++
       ["Premium Brands", "Budget Options", "On Sale"] ++
       (if (jsTrim q).length < 10 ∧ ctx.confidence < 3/10 then
          ["Most Popular", "New Arrivals", "Best Sellers"]
        else [])).take 8 ∧
    chips.length ≤ 8 ∧
    (("in Snacks" ∈ chips ∧ "in Beverages" ∈ chips ∧ "in Paper Products" ∈ chips ∧
        "in Kitchen Equipment" ∈ chips) ↔ ctx.categories = []) ∧
    (("Organic" ∈ chips ∧ "Gluten-Free" ∈ chips ∧ "Bulk Size" ∈ chips) ↔
        ctx.attributes = []) ∧
    ("for Restaurant" ∈ chips ↔ ctx.intents = []) := by
  intro ctx chips
  have hid : isProductIdentifier (jsTrim q) = false := by
    rcases hb : isProductIdentifier (jsTrim q) with _ | _
    · rfl
    · rw [analyze] at hkw
      simp only [hb, if_true] at hkw
      cases hkw
  have hconf : ¬ (extractContext (jsTrim q)).confidence > 2/5 := by
    intro hc
    rw [analyze] at hkw
    simp only [hid, Bool.false_eq_true, if_false, if_pos hc] at hkw
    cases hkw
  have hchips : chips = generatePromptChips (jsTrim q) ctx := by
    show (analyze q).suggestedChips = _
    rw [analyze]
    simp only [hid, Bool.false_eq_true, if_false, if_neg hconf]
  have hform : chips =
      ((if ctx.categories.isEmpty then
          ["in Snacks", "in Beverages", "in Paper Products", "in Kitchen Equipment"]
        else []) ++
       (if ctx.attributes.isEmpty then ["Organic", "Gluten-Free", "Bulk Size"] else []) ++
       (if ctx.intents.isEmpty then ["for Restaurant", "for Home", "for Catering"] else []) ++
       ["Premium Brands", "Budget Options", "On Sale"] ++
       (if (jsTrim q).length < 10 ∧ ctx.confidence < 3/10 then
          ["Most Popular", "New Arrivals", "Best Sellers"]
        else [])).take 8 := by
    rw [hchips, generatePromptChips]
    by_cases hlen : (jsTrim q).length < 10 <;>
      by_cases hcf : ctx.confidence < 3/10 <;>
      simp [hlen, hcf]
  clear hchips hid hconf hkw
  refine ⟨hform, ?_, ?_, ?_, ?_⟩ <;> rw [hform]
  · exact List.length_take_le 8 _
  all_goals
    clear hform
    by_cases hcat : ctx.categories = [] <;>
    by_cases hattr : ctx.attributes = [] <;>
    by_cases hint : ctx.intents = [] <;>
    by_cases hpop : ((jsTrim q).length < 10 ∧ ctx.confidence < 3/10) <;>
    simp [hcat, hattr, hint, hpop, List.isEmpty_iff]

/-- Witness for C8 (amended) at the concrete KEYWORD query `zz zz`. -/
theorem keyword_chips_spec_witness :
    let ctx := extractContext (jsTrim "zz zz")
    let chips := (analyze "zz zz").suggestedChips
    chips =
      ((if ctx.categories.isEmpty then
          ["in Snacks", "in Beverages", "in Paper Products", "in Kitchen Equipment"]
        else []) ++
       (if ctx.attributes.isEmpty then ["Organic", "Gluten-Free", "Bulk Size"] else []) ++
       (if ctx.intents.isEmpty then ["for Restaurant", "for Home", "for Catering"] else []) ++
       ["Premium Brands", "Budget Options", "On Sale"] ++
       (if (jsTrim "zz zz").length < 10 ∧ ctx.confidence < 3/10 then
          ["Most Popular", "New Arrivals", "Best Sellers"]
        else [])).take 8 ∧
    chips.length ≤ 8 ∧
    (("in Snacks" ∈ chips ∧ "in Beverages" ∈ chips ∧ "in Paper Products" ∈ chips ∧
        "in Kitchen Equipment" ∈ chips) ↔ ctx.categories = []) ∧
    (("Organic" ∈ chips ∧ "Gluten-Free" ∈ chips ∧ "Bulk Size" ∈ chips) ↔
        ctx.attributes = []) ∧
    ("for Restaurant" ∈ chips ↔ ctx.intents = []) :=
  keyword_chips_spec "zz zz" (by with_unfolding_all decide)

/-! ## Claim C1 -/

/-- C1: a request classified KEYWORD whose single backend text search
throws yields the success=false response with empty results and the
error message.  The keyword executor does not swallow the error (its
result is the error), and the orchestrator converts it into a response
rather than raising: `POST` is a total function into `SearchResponse`. -/
theorem keyword_error_propagates (env : Env) (body : SearchOptions)
    (sp : Bool) (m : String)
    (hkw : (analyze body.query).strategy = .keyword)
    (herr : env.backend (keywordSearchParams (postOptions body)) = .error m) :
    performKeywordSearch env (postOptions body) =
      (.error m, [keywordSearchParams (postOptions body)]) ∧
    POST env body sp =
      ({ success := false, results := [], count := 0, strategy := none,
         suggestedChips := none, error := some m },
       [keywordSearchParams (postOptions body)]) := by
  have hstrat : (analyze (postOptions body).query).strategy = .keyword := hkw
  have hperf : performKeywordSearch env (postOptions body) =
      (.error m, [keywordSearchParams (postOptions body)]) := by
    rw [performKeywordSearch]
    simp only [herr]
  refine ⟨hperf, ?_⟩
  rw [POST, dispatch]
  simp only [hstrat, hperf]

/-- Environment whose backend always throws. -/
def errEnv : Env := { backend := fun _ => .error "boom", log10 := fun _ => 0 }

/-- Witness for C1 at a concrete KEYWORD query and a throwing backend. -/
theorem keyword_error_propagates_witness :
    performKeywordSearch errEnv (postOptions { query := "zz zz" }) =
      (.error "boom", [keywordSearchParams (postOptions { query := "zz zz" })]) ∧
    POST errEnv { query := "zz zz" } true =
      ({ success := false, results := [], count := 0, strategy := none,
         suggestedChips := none, error := some "boom" },
       [keywordSearchParams (postOptions { query := "zz zz" })]) :=
  keyword_error_propagates errEnv { query := "zz zz" } true "boom"
    (by with_unfolding_all decide) rfl

/-! ## Claim C7

The route has no empty-query rejection: an empty or whitespace-only
query is classified KEYWORD and dispatched to the keyword executor,
which issues a backend call (with the wildcard `*` substituted when the
query string is empty, by the `options.query || "*"` default). -/

/-- Environment whose backend always returns one hit. -/
def okEnv : Env :=
  { backend := fun _ => .ok [{ document := { sku := "A" }, text_match := some 10 }],
    log10 := fun _ => 0 }

/-- Counterexample to C7 as stated: the empty query is not rejected
before dispatch — a backend call is issued (non-empty trace) and the
response carries the backend results rather than an empty result. -/
theorem empty_query_not_rejected :
    (POST okEnv { query := "" } true).1.success = true ∧
    (POST okEnv { query := "" } true).1.results ≠ [] ∧
    (POST okEnv { query := "" } true).2 ≠ [] := by
  with_unfolding_all decide

/-- C7 (amended): every empty or whitespace-only query is classified
KEYWORD and dispatched to the keyword executor, which issues exactly one
backend call whose query string is the caller string with `*`
substituted when it is empty. -/
theorem empty_query_keyword_dispatch (env : Env) (body : SearchOptions) (sp : Bool)
    (hq : jsTrim body.query = "") :
    (analyze body.query).strategy = .keyword ∧
    (POST env body sp).2 = [keywordSearchParams (postOptions body)] ∧
    (keywordSearchParams (postOptions body)).q = jsOrStr body.query "*" := by
  have hstrat : (analyze body.query).strategy = .keyword := by
    simp only [analyze, hq]
    with_unfolding_all decide
  refine ⟨hstrat, ?_, rfl⟩
  have hstrat' : (analyze (postOptions body).query).strategy = .keyword := hstrat
  rw [POST, dispatch]
  simp only [hstrat']
  rw [performKeywordSearch]
  rcases hb : env.backend (keywordSearchParams (postOptions body)) with m | hits <;>
    simp only [hb]

/-- Witness for C7 (amended) at a whitespace-only query. -/
theorem empty_query_keyword_dispatch_witness :
    (analyze "  ").strategy = .keyword ∧
    (POST okEnv { query := "  " } true).2 =
      [keywordSearchParams (postOptions { query := "  " })] ∧
    (keywordSearchParams (postOptions { query := "  " })).q = jsOrStr "  " "*" :=
  empty_query_keyword_dispatch okEnv { query := "  " } true
    (by with_unfolding_all decide)

/-! ## Claim C10 -/

/-- C10: for requests classified EXACT the whole response is independent
of the salesBoost parameter: the exact-match executor scores every hit
with the fixed 100 and the fallback path uses the raw backend text-match
score, and neither executor reads salesBoost. -/
theorem exact_salesBoost_independent (env : Env) (body : SearchOptions)
    (sp : Bool) (b₁ b₂ : Option Rat)
    (hex : (analyze body.query).strategy = .exactMatch) :
    POST env { body with salesBoost := b₁ } sp =
      POST env { body with salesBoost := b₂ } sp := by
  have h₁ : (analyze (postOptions { body with salesBoost := b₁ }).query).strategy =
      .exactMatch := hex
  have h₂ : (analyze (postOptions { body with salesBoost := b₂ }).query).strategy =
      .exactMatch := hex
  rw [POST, POST, dispatch, dispatch]
  simp only [h₁, h₂]
  rfl

/-- Witness for C10: two runs of an EXACT query differing only in
salesBoost produce identical responses. -/
theorem exact_salesBoost_independent_witness :
    POST okEnv { query := "SKU123456", salesBoost := some 0 } true =
      POST okEnv { query := "SKU123456", salesBoost := some 2 } true :=
  exact_salesBoost_independent okEnv { query := "SKU123456" } true (some 0) (some 2)
    (by with_unfolding_all decide)

/-! ## Claim C5

The route applies `sortByStockStatus` unconditionally; no `stockPriority`
field of the request body is read anywhere in route.ts, so there is no
score-only ordering mode. -/

/-- Environment returning an out-of-stock high scorer and an in-stock
low scorer. -/
def stockEnv : Env :=
  { backend := fun _ => .ok
      [{ document := { sku := "B", is_in_stock := false }, text_match := some 20 },
       { document := { sku := "A", is_in_stock := true }, text_match := some 10 }],
    log10 := fun _ => 0 }

/-- Counterexample to C5 as stated: with stockPriority false the claim
requires ordering by combinedScore only, i.e. the out-of-stock
20-scorer first; the code still demotes it below the in-stock
10-scorer. -/
theorem stockPriority_false_counterexample :
    ((POST stockEnv { query := "zz zz" } false).1.results.map
        (fun p => (p.sku, p.is_in_stock, p.score))) =
      [("A", true, (10 : Rat)), ("B", false, (20 : Rat))] := by
  with_unfolding_all decide

/-- C5 (amended): the final ordering is independent of any stockPriority
setting of the request, and always places every out-of-stock product
after every in-stock product, descending by score within each stock
partition (`stockBefore b a = false` for every ordered pair `a` before
`b` states exactly these two facts). -/
theorem stock_demotion_unconditional (env : Env) (body : SearchOptions)
    (sp₁ sp₂ : Bool) :
    POST env body sp₁ = POST env body sp₂ ∧
    ((POST env body sp₁).1.results).Pairwise (fun a b => stockBefore b a = false) := by
  refine ⟨rfl, ?_⟩
  rw [POST]
  rcases hd : dispatch env (postOptions body) (analyze (postOptions body).query)
    with ⟨res, tr⟩
  rcases res with m | rs
  · simp
  · simp only
    exact jsSortBy_pairwise stockBefore stockBefore_asymm stockBefore_trans rs

/-! ## Claim C4 -/

theorem addProducts_fresh (label : String) (w : Rat) (ps : List Product) :
    ∀ st : List FEntry, (ps.map Product.sku).Nodup →
      (∀ p ∈ ps, hasEntry p.sku st = false) →
      addProducts label w st ps =
        st ++ ps.map (fun p =>
          { prod := { p with score := p.score * w }, sources := [label] }) := by
  induction ps with
  | nil => intro st _ _; simp [addProducts]
  | cons p rest ih =>
    intro st hnd hfresh
    simp only [List.map_cons, List.nodup_cons] at hnd
    have hstep : upsert label w st p =
        st ++ [{ prod := { p with score := p.score * w }, sources := [label] }] := by
      rw [upsert, if_neg ?_]
      have := hfresh p (List.mem_cons_self p rest)
      simpa [hasEntry] using this
    have h1 : addProducts label w st (p :: rest) =
        addProducts label w (upsert label w st p) rest := rfl
    rw [h1, hstep, ih _ hnd.2 ?_]
    · simp
    · intro x hx
      rw [hasEntry]
      simp only [List.any_append, Bool.or_eq_false_iff]
      constructor
      · simpa [hasEntry] using hfresh x (List.mem_cons_of_mem p hx)
      · simp only [List.any_cons, List.any_nil, Bool.or_false,
          decide_eq_false_iff_not]
        intro hc
        exact hnd.1 (by
          simp only [List.mem_map]
          exact ⟨x, hx, hc.symm⟩)

theorem merge_only_keyword (ks : List Product) (cs : SemanticConcepts) (sb : Rat)
    (hnd : (ks.map Product.sku).Nodup) :
    List.Perm (mergeSemanticResults [] ks [] cs sb)
      (ks.map (fun p => { p with score := p.score * (35/100) })) := by
  have hstate : fuseState (mergeSets [] ks [] cs) =
      ks.map (fun p =>
        { prod := { p with score := p.score * (35/100) }, sources := ["keyword"] }) := by
    by_cases hm : hasMultipleConcepts cs = true
    · simp only [mergeSets, if_pos hm, fuseState, List.foldl_cons, List.foldl_nil]
      have h0 : addProducts "concept" (4/10) [] [] = [] := rfl
      rw [h0, addProducts_fresh "keyword" (35/100) ks [] hnd (by intro p _; rfl)]
      simp [addProducts]
    · simp only [mergeSets, if_neg hm, fuseState, List.foldl_cons, List.foldl_nil]
      have h0 : addProducts "vector" (5/10) [] [] = [] := rfl
      rw [h0, addProducts_fresh "keyword" (35/100) ks [] hnd (by intro p _; rfl)]
      simp [addProducts]
  have hout : ((fuseState (mergeSets [] ks [] cs)).map applyAgreementBoost).map
      FEntry.prod = ks.map (fun p => { p with score := p.score * (35/100) }) := by
    rw [hstate, List.map_map, List.map_map]
    refine List.map_congr_left ?_
    intro p _
    simp [Function.comp, applyAgreementBoost]
  have h2 : mergeSemanticResults [] ks [] cs sb =
      jsSortBy scoreBefore
        (((fuseState (mergeSets [] ks [] cs)).map applyAgreementBoost).map
          FEntry.prod) := rfl
  rw [h2, hout]
  exact jsSortBy_perm _ _

/-- C4: a SEMANTIC request with a non-empty embedding degrades branch
failures to empty contributions; in particular when the vector branch
yields nothing and the concept-combination branch yields nothing, the
response is a success carrying exactly the concept-aware keyword branch
products, re-scored by the 0.35 keyword weight and re-sorted. -/
theorem semantic_degrades_to_keyword_branch (env : Env) (body : SearchOptions)
    (sp : Bool) (emb : List Rat) (ks : List Product)
    (hsem : (analyze body.query).strategy = .semantic)
    (hemb : body.queryEmbedding = some emb)
    (hne : emb ≠ [])
    (hvec : (performVectorSearch env (postOptions body)).1 = [])
    (hcombo : (performConceptCombinationSearch env (postOptions body)
        (extractSemanticConcepts (postOptions body).query)).1 = [])
    (hkw : (performConceptAwareKeywordSearch env (postOptions body)
        (extractSemanticConcepts (postOptions body).query)).1 = ks)
    (hnd : (ks.map Product.sku).Nodup) :
    (POST env body sp).1.success = true ∧
    (POST env body sp).1.error = none ∧
    List.Perm ((POST env body sp).1.results)
      (ks.map (fun p => { p with score := p.score * (35/100) })) ∧
    (ks ≠ [] → (POST env body sp).1.results ≠ []) := by
  have hsem' : (analyze (postOptions body).query).strategy = .semantic := hsem
  have hemb' : (postOptions body).queryEmbedding = some emb := hemb
  have hnemp : emb.isEmpty = false := by
    rw [Bool.eq_false_iff]
    intro hc
    exact hne (List.isEmpty_iff.mp hc)
  have hc1 : (if ((!(extractSemanticConcepts (postOptions body).query).dietary.isEmpty &&
      !(extractSemanticConcepts (postOptions body).query).occasions.isEmpty) = true) then
        performConceptCombinationSearch env (postOptions body)
          (extractSemanticConcepts (postOptions body).query)
      else (([], []) : List Product × List SearchParams)).1 = [] := by
    split
    · exact hcombo
    · rfl
  have hsemres1 : (performSemanticSearch env (postOptions body)).1 =
      .ok (mergeSemanticResults [] ks []
        (extractSemanticConcepts (postOptions body).query)
        (getSalesBoost (postOptions body))) := by
    rw [performSemanticSearch, hemb']
    simp only [hnemp, Bool.false_eq_true, if_false]
    rw [hvec, hkw, hc1]
  rcases hpair : performSemanticSearch env (postOptions body) with ⟨res, tr⟩
  have hres : res = .ok (mergeSemanticResults [] ks []
      (extractSemanticConcepts (postOptions body).query)
      (getSalesBoost (postOptions body))) := by
    rw [← hsemres1, hpair]
  subst hres
  have hresp : (POST env body sp).1 =
      { success := true,
        results := sortByStockStatus (mergeSemanticResults [] ks []
          (extractSemanticConcepts (postOptions body).query)
          (getSalesBoost (postOptions body))),
        count := (sortByStockStatus (mergeSemanticResults [] ks []
          (extractSemanticConcepts (postOptions body).query)
          (getSalesBoost (postOptions body)))).length,
        strategy := some (analyze (postOptions body).query).strategy,
        suggestedChips := some (analyze (postOptions body).query).suggestedChips,
        error := none } := by
    rw [POST, dispatch]
    simp only [hsem', hpair]
  have hperm : List.Perm ((POST env body sp).1.results)
      (ks.map (fun p => { p with score := p.score * (35/100) })) := by
    rw [hresp]
    simp only
    exact (jsSortBy_perm stockBefore _).trans (merge_only_keyword ks _ _ hnd)
  refine ⟨by rw [hresp], by rw [hresp], hperm, ?_⟩
  intro hks hcnil
  have hlen := hperm.length_eq
  rw [hcnil] at hlen
  simp only [List.length_nil, List.length_map] at hlen
  exact hks (List.eq_nil_of_length_eq_zero hlen.symm)

/-- Environment for the C4 witness: the vector search throws, the
concept-combination search returns no hits, the concept-aware keyword
search returns one hit. -/
def semEnv : Env :=
  { backend := fun p =>
      if p.vector_embedding.isSome then .error "boom"
      else if p.query_by = "name,brand,description" then .ok []
      else .ok [{ document := { sku := "A", name := "x" }, text_match := some 10 }],
    log10 := fun _ => 0 }

/-- Request body for the C4 witness. -/
def semBody : SearchOptions :=
  { query := "vegan thanksgiving options", queryEmbedding := some [1, 2, 3] }

/-- The concept-aware keyword branch result in the C4 witness scenario. -/
def semKs : List Product := [{ sku := "A", name := "x", score := 10 }]

/-- Witness for C4: the semantic query with a failing vector branch and
an empty concept branch still returns the keyword branch product. -/
theorem semantic_degrades_to_keyword_branch_witness :
    (POST semEnv semBody true).1.success = true ∧
    (POST semEnv semBody true).1.error = none ∧
    List.Perm ((POST semEnv semBody true).1.results)
      (semKs.map (fun p => { p with score := p.score * (35/100) })) ∧
    (semKs ≠ [] → (POST semEnv semBody true).1.results ≠ []) :=
  semantic_degrades_to_keyword_branch semEnv semBody true [1, 2, 3] semKs
    (by with_unfolding_all decide) rfl (by decide)
    (by with_unfolding_all decide) (by with_unfolding_all decide)
    (by with_unfolding_all decide) (by decide)

/-! ## Claim C6 -/

theorem performVectorSearchAux_eq (env : Env) (o : SearchOptions) (emb : List Rat) :
    performVectorSearchAux env o emb =
      match env.backend (vectorSearchParams o emb) with
      | .ok hits =>
        (processSearchResults env (getSalesBoost o) hits, [vectorSearchParams o emb])
      | .error m =>
        if (truthyStr m && strIncludes m "payload" && decide (768 < emb.length)) = true then
          ((performVectorSearchAux env o (emb.take 768)).1,
            vectorSearchParams o emb :: (performVectorSearchAux env o (emb.take 768)).2)
        else ([], [vectorSearchParams o emb]) := by
  rw [performVectorSearchAux]
  rcases hb : env.backend (vectorSearchParams o emb) with m | hits
  · simp only [dite_eq_ite]
  · rfl

theorem performVectorSearchAux_trace_short (env : Env) (o : SearchOptions)
    (emb : List Rat) (hlen : emb.length ≤ 768) :
    ((performVectorSearchAux env o emb).2).length = 1 := by
  rw [performVectorSearchAux_eq]
  rcases hb : env.backend (vectorSearchParams o emb) with m | hits
  · have hcond : (truthyStr m && strIncludes m "payload" &&
        decide (768 < emb.length)) = false := by
      have : decide (768 < emb.length) = false := by
        simp only [decide_eq_false_iff_not, not_lt]
        exact hlen
      simp [this]
    simp [hcond]
  · simp

theorem performVectorSearchAux_trace_le_two (env : Env) (o : SearchOptions)
    (emb : List Rat) :
    ((performVectorSearchAux env o emb).2).length ≤ 2 := by
  rw [performVectorSearchAux_eq]
  rcases hb : env.backend (vectorSearchParams o emb) with m | hits
  · simp only
    split
    · rename_i hcond
      have hshort : (emb.take 768).length ≤ 768 := by
        simp [List.length_take]
      have h1 := performVectorSearchAux_trace_short env o (emb.take 768) hshort
      simp only [List.length_cons, h1]
      omega
    · simp
  · simp

/-- C6: a vector sub-search failing with a payload-class error while the
embedding has more than 768 dimensions is retried exactly once with the
embedding truncated to its first 768 dimensions (the trace is exactly
those two calls); if the retry also fails the branch returns `[]`
(otherwise the processed retry hits); and no executor retries beyond
this: the vector executor issues at most 2 backend calls, the keyword,
fallback and concept-aware executors exactly 1, the concept-combination
executor at most 1, and the exact executor at most 2 (the second being
the distinct fallback search, not a retry). -/
theorem vector_payload_retry (env : Env) :
    (∀ (o : SearchOptions) (emb : List Rat) (m : String),
      o.queryEmbedding = some emb →
      env.backend (vectorSearchParams o emb) = .error m →
      m ≠ "" → strIncludes m "payload" = true → 768 < emb.length →
      (performVectorSearch env o).2 =
        [vectorSearchParams o emb, vectorSearchParams o (emb.take 768)] ∧
      (performVectorSearch env o).1 =
        (match env.backend (vectorSearchParams o (emb.take 768)) with
         | .ok hits => processSearchResults env (getSalesBoost o) hits
         | .error _ => [])) ∧
    (∀ o : SearchOptions, ((performVectorSearch env o).2).length ≤ 2) ∧
    (∀ o : SearchOptions, ((performKeywordSearch env o).2).length = 1) ∧
    (∀ o : SearchOptions, ((performFallbackSearch env o).2).length = 1) ∧
    (∀ (o : SearchOptions) (cs : SemanticConcepts),
      ((performConceptAwareKeywordSearch env o cs).2).length = 1) ∧
    (∀ (o : SearchOptions) (cs : SemanticConcepts),
      ((performConceptCombinationSearch env o cs).2).length ≤ 1) ∧
    (∀ (o : SearchOptions) (a : AnalysisResult),
      ((performExactMatchSearch env o a).2).length ≤ 2) := by
  refine ⟨?_, ?_, ?_, ?_, ?_, ?_, ?_⟩
  · intro o emb m hemb herr hm hpay hlen
    have hcond : (truthyStr m && strIncludes m "payload" &&
        decide (768 < emb.length)) = true := by
      simp [truthyStr, hm, hpay, hlen]
    have htake : (emb.take 768).length ≤ 768 := by simp [List.length_take]
    have hretry : performVectorSearchAux env o (emb.take 768) =
        (match env.backend (vectorSearchParams o (emb.take 768)) with
         | .ok hits => processSearchResults env (getSalesBoost o) hits
         | .error _ => [],
         [vectorSearchParams o (emb.take 768)]) := by
      rw [performVectorSearchAux_eq]
      rcases hb : env.backend (vectorSearchParams o (emb.take 768)) with m2 | hits
      · have hcond2 : (truthyStr m2 && strIncludes m2 "payload" &&
            decide (768 < (emb.take 768).length)) = false := by
          have : decide (768 < (emb.take 768).length) = false := by
            simp only [decide_eq_false_iff_not, not_lt]
            exact htake
          simp [this]
        simp [hcond2]
      · simp
    rw [performVectorSearch]
    simp only [hemb]
    rw [performVectorSearchAux_eq]
    simp only [herr]
    rw [if_pos hcond, hretry]
    exact ⟨rfl, rfl⟩
  · intro o
    rw [performVectorSearch]
    rcases he : o.queryEmbedding with _ | emb
    · simp
    · exact performVectorSearchAux_trace_le_two env o emb
  · intro o
    rw [performKeywordSearch]
    rcases hb : env.backend (keywordSearchParams o) with m | hits <;> simp [hb]
  · intro o
    rw [performFallbackSearch]
    rcases hb : env.backend (fallbackSearchParams o) with m | hits <;> simp [hb]
  · intro o cs
    rw [performConceptAwareKeywordSearch]
    rcases hb : env.backend (conceptKeywordSearchParams o cs) with m | hits <;> simp [hb]
  · intro o cs
    rw [performConceptCombinationSearch]
    split
    · simp
    · rcases hb : env.backend (comboSearchParams o
        (generateAlternativeSearchTerms cs)) with m | hits <;> simp [hb]
  · intro o a
    rw [performExactMatchSearch]
    rcases hb : env.backend (exactSearchParams o) with m | hits
    · simp only
      rw [performFallbackSearch]
      rcases hb2 : env.backend (fallbackSearchParams o) with m2 | hits2 <;> simp [hb2]
    · simp only
      split
      · simp
      · rw [performFallbackSearch]
        rcases hb2 : env.backend (fallbackSearchParams o) with m2 | hits2 <;> simp [hb2]

/-- Environment whose backend always reports a payload error. -/
def payloadEnv : Env :=
  { backend := fun _ => .error "payload too large", log10 := fun _ => 0 }

/-- A 769-dimensional request for the C6 witness. -/
def vecBody : SearchOptions :=
  { query := "q", queryEmbedding := some (List.replicate 769 (0 : Rat)) }

/-- Witness for C6: the 769-dimensional embedding is retried exactly once
with the first 768 dimensions; since the retry also fails, the vector
branch returns the empty list. -/
theorem vector_payload_retry_witness :
    (performVectorSearch payloadEnv vecBody).2 =
      [vectorSearchParams vecBody (List.replicate 769 (0 : Rat)),
       vectorSearchParams vecBody ((List.replicate 769 (0 : Rat)).take 768)] ∧
    (performVectorSearch payloadEnv vecBody).1 = [] := by
  have h := (vector_payload_retry payloadEnv).1 vecBody
    (List.replicate 769 (0 : Rat)) "payload too large" rfl rfl
    (by decide) (by decide) (by rw [List.length_replicate]; omega)
  exact ⟨h.1, h.2⟩

end SearchApp
